import Mathlib
set_option maxRecDepth 10000
set_option maxHeartbeats 1000000

/-!
Shallow embedding of the TradoVerse backtesting engine
(backend/app/services/backtesting.py) over exact rational arithmetic.
Python floats are modelled as rationals; every Python expression that can
raise an exception inside the engine is modelled in the Except monad
(division by zero, out-of-range indexing, max/min of an empty sequence).
Python dicts that preserve insertion order are modelled as association
lists whose keys are unique by construction.
-/

namespace Backtesting

/-- Trading signal produced by a strategy: the Python strings
"buy", "sell" and "hold". -/
inductive Signal
  | buy
  | sell
  | hold
deriving DecidableEq

/-- Strategy identifiers of schemas.StrategyType. -/
inductive StrategyType
  | momentum
  | mean_reversion
  | trend_following
  | arbitrage
  | ml_based
  | other
deriving DecidableEq

/-- Mirrors dataclass Position in backtesting.py. -/
structure Position where
  symbol : String
  quantity : ℚ
  entry_price : ℚ
  entry_date : ℤ
  side : String
deriving DecidableEq

/-- Mirrors dataclass Trade in backtesting.py. -/
structure Trade where
  symbol : String
  side : String
  entry_price : ℚ
  exit_price : ℚ
  quantity : ℚ
  entry_date : ℤ
  exit_date : ℤ
  pnl : ℚ
  pnl_percent : ℚ
deriving DecidableEq

/-- One element of state.equity_curve: the dict
with keys timestamp, equity, cash, positions_value appended per bar. -/
structure EquityPoint where
  timestamp : ℤ
  equity : ℚ
  cash : ℚ
  positions_value : ℚ
deriving DecidableEq

/-- Mirrors dataclass BacktestState: dates are modelled as integer day
counts (the code only ever stores a date and adds one day per bar). -/
structure BacktestState where
  date : ℤ
  cash : ℚ
  positions : List (String × Position) := []
  equity : ℚ := 0
  trades : List Trade := []
  equity_curve : List EquityPoint := []
deriving DecidableEq

/-- One symbol of fetched market data. The source also carries
open, high, low and volume arrays, but the simulation loop reads only
the close array and, for the first requested symbol, the timestamps. -/
structure MarketSeries where
  timestamps : List ℤ
  close : List ℚ
deriving DecidableEq

/-- Constructor parameters of BacktestEngine, with its defaults
(commission 0.1 percent, slippage 0.05 percent). -/
structure EngineConfig where
  initial_capital : ℚ := 100000
  commission : ℚ := 1/1000
  slippage : ℚ := 1/2000
deriving DecidableEq

/-- The values returned by params.get for every key the three strategies
read, with the defaults hard-coded in the source. A Python parameters
dict maps to the structure holding, for each key, the dict value when
present and the default otherwise; unrecognized keys are ignored. -/
structure StrategyParams where
  short_period : ℤ := 10
  long_period : ℤ := 30
  period : ℤ := 20
  std_dev : ℚ := 2
  lookback : ℤ := 20
deriving DecidableEq

/-! Association-list operations standing for the Python dict operations
used by the engine. Keys are unique by construction: a key is inserted
only after membership was tested negative. -/

/-- Python dict lookup d[k] (also the membership test: k in d holds
iff the lookup returns some value). -/
def lookupA {α : Type} : List (String × α) → String → Option α
  | [], _ => none
  | (k, v) :: rest, s => if k = s then some v else lookupA rest s

/-- Python del d[k]: removes the (unique) binding of the key. -/
def eraseA {α : Type} : List (String × α) → String → List (String × α)
  | [], _ => []
  | (k, v) :: rest, s => if k = s then rest else (k, v) :: eraseA rest s

/-! Python numeric helpers. -/

/-- Structural take, used by the slice model. -/
def listTake {α : Type} : ℕ → List α → List α
  | 0, _ => []
  | _, [] => []
  | n+1, x :: r => x :: listTake n r

/-- Structural drop, used by the slice model. -/
def listDrop {α : Type} : ℕ → List α → List α
  | 0, l => l
  | _, [] => []
  | n+1, _ :: r => listDrop n r

/-- Python list slice l[a:b] with step 1: negative bounds wrap around
the end of the list, and both bounds are clamped to the list. -/
def pySlice {α : Type} (l : List α) (a b : ℤ) : List α :=
  let n : ℤ := l.length
  let lo : ℤ := if a < 0 then max (n + a) 0 else min a n
  let hi : ℤ := if b < 0 then max (n + b) 0 else min b n
  listTake (hi - lo).toNat (listDrop lo.toNat l)

/-- Python l[i] for a nonnegative index: raises IndexError when the
index is out of range. -/
def pyGet {α : Type} (l : List α) (i : ℕ) : Except String α :=
  match l[i]? with
  | some x => .ok x
  | none => .error "IndexError"

/-- Result of np.mean: none stands for the NaN produced on an empty
array (every comparison against NaN is False in Python). -/
def npMean (l : List ℚ) : Option ℚ :=
  if l = [] then none else some (l.sum / l.length)

/-- Result of the square of np.std, i.e. the population variance
mean((x - mean)^2): none again stands for NaN on an empty array.
The square root itself is irrational, so the comparisons against the
Bollinger bands are decided by gtMulSqrt below in exact arithmetic. -/
def npVar (l : List ℚ) : Option ℚ :=
  if l = [] then none
  else some ((l.map (fun x => (x - l.sum / l.length)^2)).sum / l.length)

/-- Exact-arithmetic decision of the comparison x > k * sqrt v for
v ≥ 0, used for the band comparisons price < ma - k*std and
price > ma + k*std (with x the signed distance from the moving
average). Equivalent to the real comparison; proved by
gtMulSqrt_iff below. -/
def gtMulSqrt (x k v : ℚ) : Bool :=
  if 0 ≤ k then decide (0 < x) && decide (k^2 * v < x^2)
  else decide (0 < x) || (decide (0 ≤ x) && decide (0 < v)) ||
    decide (x^2 < k^2 * v)

/-- Python max() over a list: raises ValueError on an empty sequence. -/
def pyMax : List ℚ → Except String ℚ
  | [] => .error "ValueError: max() arg is an empty sequence"
  | x :: r => .ok (r.foldl max x)

/-- Python min() over a list: raises ValueError on an empty sequence. -/
def pyMin : List ℚ → Except String ℚ
  | [] => .error "ValueError: min() arg is an empty sequence"
  | x :: r => .ok (r.foldl min x)

/-- Decimal rounding of round(x, d): round-half-to-even, matching
Python's rounding of an exact half (floats can also round an
apparently-half value by its binary representation; no claim below
depends on that difference). -/
def roundDec (d : ℕ) (x : ℚ) : ℚ :=
  let y : ℚ := x * (10:ℚ)^d
  let f : ℤ := ⌊y⌋
  let r : ℚ := y - f
  let z : ℤ :=
    if r < 1/2 then f
    else if 1/2 < r then f + 1
    else if Even f then f else f + 1
  (z : ℚ) / (10:ℚ)^d

/-- Shorthand for rounding to 2 decimal places. -/
def round2 (x : ℚ) : ℚ := roundDec 2 x

/-! Strategies (MomentumStrategy, MeanReversionStrategy,
TrendFollowingStrategy). Each generate_signals builds a dict of signals
in the iteration order of the price-data dict. -/

/-- Body of the per-symbol loop of MomentumStrategy.generate_signals.
Comparisons against a NaN moving average (empty slice) are False in
Python, so both band tests fail and the signal is hold. -/
def momentumSignal (prices : List ℚ) (i : ℕ) (p : StrategyParams) : Signal :=
  if (i : ℤ) < p.long_period then .hold
  else
    match npMean (pySlice prices ((i : ℤ) - p.short_period) i),
          npMean (pySlice prices ((i : ℤ) - p.long_period) i) with
    | some short_ma, some long_ma =>
        if short_ma > long_ma * (102/100) then .buy
        else if short_ma < long_ma * (98/100) then .sell
        else .hold
    | _, _ => .hold

/-- Body of the per-symbol loop of MeanReversionStrategy.generate_signals.
The band tests current_price < ma - std_dev * std and
current_price > ma + std_dev * std are decided exactly by gtMulSqrt on
the variance; against NaN bands (empty window) both tests are False. -/
def meanReversionSignal (prices : List ℚ) (i : ℕ) (p : StrategyParams) :
    Except String Signal :=
  if (i : ℤ) < p.period then .ok .hold
  else
    let window := pySlice prices ((i : ℤ) - p.period) i
    do
      let current_price ← pyGet prices i
      match npMean window, npVar window with
      | some ma, some v =>
          if gtMulSqrt (ma - current_price) p.std_dev v then .ok .buy
          else if gtMulSqrt (current_price - ma) p.std_dev v then .ok .sell
          else .ok .hold
      | _, _ => .ok .hold

/-- Body of the per-symbol loop of
TrendFollowingStrategy.generate_signals. -/
def trendSignal (prices : List ℚ) (i : ℕ) (p : StrategyParams) :
    Except String Signal :=
  if (i : ℤ) < p.lookback then .ok .hold
  else
    let window := pySlice prices ((i : ℤ) - p.lookback) i
    do
      let high ← pyMax window
      let low ← pyMin window
      let current_price ← pyGet prices i
      if current_price > high then .ok .buy
      else if current_price < low then .ok .sell
      else .ok .hold

/-- Runs a fallible per-symbol signal function over the price-data dict
in order, stopping at the first exception (the Python for loop). -/
def mapSignals (f : List ℚ → Except String Signal) :
    List (String × List ℚ) → Except String (List (String × Signal))
  | [] => .ok []
  | (s, prices) :: rest => do
      let sig ← f prices
      let tail ← mapSignals f rest
      .ok ((s, sig) :: tail)

/-- Dispatch of get_strategy followed by generate_signals: unknown or
unmapped strategy types fall back to MomentumStrategy. -/
def generate_signals (stype : StrategyType) (p : StrategyParams)
    (data : List (String × List ℚ)) (i : ℕ) :
    Except String (List (String × Signal)) :=
  match stype with
  | .mean_reversion => mapSignals (fun prices => meanReversionSignal prices i p) data
  | .trend_following => mapSignals (fun prices => trendSignal prices i p) data
  | _ => .ok (data.map (fun sp => (sp.1, momentumSignal sp.2 i p)))

/-! The execution model: one iteration of the signal loop inside
BacktestEngine.run_backtest. -/

/-- Lines 387-405: the buy branch. Python raises ZeroDivisionError on
the position-sizing division position_value / current_price when the
close is zero; that is the only unguarded division in the loop. -/
def execBuy (cfg : EngineConfig) (st : BacktestState) (sym : String)
    (current_price : ℚ) : Except String BacktestState :=
  let position_value := st.cash * (1/10)
  if current_price = 0 then .error "ZeroDivisionError"
  else
    let quantity := position_value / current_price
    if 0 < quantity ∧ position_value ≤ st.cash then
      let actual_price := current_price * (1 + cfg.slippage)
      let cost := quantity * actual_price * (1 + cfg.commission)
      if cost ≤ st.cash then
        .ok { st with
              cash := st.cash - cost,
              positions := st.positions ++
                [(sym, ⟨sym, quantity, actual_price, st.date, "long"⟩)] }
      else .ok st
    else .ok st

/-- Lines 407-433: the sell branch, closing a position fully and
recording the round-trip Trade. This branch never raises (the
pnl_percent division is guarded by cost_basis > 0). -/
def execSell (cfg : EngineConfig) (st : BacktestState) (sym : String)
    (current_price : ℚ) (position : Position) : BacktestState :=
  let actual_price := current_price * (1 - cfg.slippage)
  let proceeds := position.quantity * actual_price * (1 - cfg.commission)
  let cost_basis := position.quantity * position.entry_price
  let pnl := proceeds - cost_basis
  let pnl_percent := if 0 < cost_basis then pnl / cost_basis else 0
  { st with
    trades := st.trades ++
      [⟨sym, "long", position.entry_price, actual_price,
        position.quantity, position.entry_date, st.date,
        pnl, pnl_percent⟩],
    cash := st.cash + proceeds,
    positions := eraseA st.positions sym }

/-- Handles one (symbol, signal) pair of a bar, lines 384-433. The
if/elif chain of the source is the match: a buy acts only without an
open position, a sell only with one, anything else leaves the state
unchanged. -/
def execSymbol (cfg : EngineConfig) (price_data : List (String × List ℚ))
    (i : ℕ) (st : BacktestState) (sym : String) (sig : Signal) :
    Except String BacktestState := do
  let current_price ←
    match lookupA price_data sym with
    | some prices => pyGet prices i
    | none => .error "KeyError"
  match sig, lookupA st.positions sym with
  | .buy, none => execBuy cfg st sym current_price
  | .sell, some position => .ok (execSell cfg st sym current_price position)
  | _, _ => .ok st

/-- Folds execSymbol over the signal dict in iteration order. -/
def execSignals (cfg : EngineConfig) (price_data : List (String × List ℚ))
    (i : ℕ) : BacktestState → List (String × Signal) →
    Except String BacktestState
  | st, [] => .ok st
  | st, (sym, sig) :: rest => do
      let st' ← execSymbol cfg price_data i st sym sig
      execSignals cfg price_data i st' rest

/-- Lines 436-440: value of the open positions at the close prices of
bar i; a position whose symbol is missing from the price data or whose
series is too short contributes nothing (the generator filter). -/
def positions_value_calc (positions : List (String × Position))
    (price_data : List (String × List ℚ)) (i : ℕ) : ℚ :=
  (positions.map (fun sp =>
    match lookupA price_data sp.2.symbol with
    | some prices => if i < prices.length then sp.2.quantity * prices.getD i 0 else 0
    | none => 0)).sum

/-- Timestamp of bar i: read from the series of the first requested
symbol (market_data holds the requested symbols in request order, so
its first key is symbols[0]); the bare loop index when the symbol list
is empty. The read raises IndexError when the timestamp array is
shorter than the common close length. -/
def tsOf (market_data : List (String × MarketSeries)) (i : ℕ) :
    Except String ℤ :=
  match market_data with
  | (_, series) :: _ => pyGet series.timestamps i
  | [] => .ok (i : ℤ)

/-- One full bar of the simulation loop: signals, execution,
equity-curve bookkeeping, date advance. -/
def execBar (cfg : EngineConfig) (market_data : List (String × MarketSeries))
    (price_data : List (String × List ℚ)) (stype : StrategyType)
    (p : StrategyParams) (i : ℕ) (st : BacktestState) :
    Except String BacktestState := do
  let signals ← generate_signals stype p price_data i
  let st ← execSignals cfg price_data i st signals
  let pv := positions_value_calc st.positions price_data i
  let ts ← tsOf market_data i
  .ok { st with
        equity := st.cash + pv,
        equity_curve := st.equity_curve ++ [⟨ts, st.cash + pv, st.cash, pv⟩],
        date := st.date + 1 }

/-- The bar loop for i in range(min_length), written with an explicit
remaining-bar count so it is structurally recursive. -/
def runLoop (cfg : EngineConfig) (market_data : List (String × MarketSeries))
    (price_data : List (String × List ℚ)) (stype : StrategyType)
    (p : StrategyParams) : ℕ → ℕ → BacktestState →
    Except String BacktestState
  | 0, _, st => .ok st
  | k+1, i, st => do
      let st' ← execBar cfg market_data price_data stype p i st
      runLoop cfg market_data price_data stype p k (i+1) st'

/-- Minimum over a nonempty list of lengths. -/
def minLenAux : List ℕ → ℕ → ℕ
  | [], acc => acc
  | n :: r, acc => minLenAux r (min acc n)

/-- Line 373: the common simulated length, the minimum close-array
length across symbols, 0 when the price-data dict is empty. -/
def min_length (price_data : List (String × List ℚ)) : ℕ :=
  match price_data.map (fun sp => sp.2.length) with
  | [] => 0
  | n :: r => minLenAux r n

/-- Initial BacktestState of a run. -/
def initState (cfg : EngineConfig) (start_date : ℤ) : BacktestState :=
  { date := start_date, cash := cfg.initial_capital,
    equity := cfg.initial_capital }

/-- The whole simulation phase of BacktestEngine.run_backtest: from the
fetched market data to the final BacktestState. The market-data dict
holds the requested symbols in request order (fetch_historical_data
inserts them in order); data fetching itself is an external
collaborator and is taken as an input here. -/
def runSim (cfg : EngineConfig) (market_data : List (String × MarketSeries))
    (stype : StrategyType) (p : StrategyParams) (start_date : ℤ) :
    Except String BacktestState :=
  let price_data := market_data.map (fun sd => (sd.1, sd.2.close))
  runLoop cfg market_data price_data stype p (min_length price_data) 0
    (initState cfg start_date)

/-! The metrics calculator (_calculate_metrics and _empty_results). -/

/-- One serialized entry of the trades list of BacktestResults. -/
structure SerTrade where
  symbol : String
  side : String
  entry_price : ℚ
  exit_price : ℚ
  quantity : ℚ
  pnl : ℚ
  pnl_percent : ℚ
deriving DecidableEq

/-- The schemas.BacktestResults record. The sharpe_ratio entry is
irrational (it involves square roots) and is therefore kept out of this
computable record; it is modelled separately by sharpe_ratio_calc. -/
structure BacktestResults where
  total_return : ℚ
  max_drawdown : ℚ
  win_rate : ℚ
  profit_factor : ℚ
  total_trades : ℕ
  winning_trades : ℕ
  losing_trades : ℕ
  avg_win : ℚ
  avg_loss : ℚ
  equity_curve : List (ℤ × ℚ)
  trades : List SerTrade
deriving DecidableEq

/-- Mirrors BacktestEngine._empty_results. -/
def empty_results : BacktestResults :=
  { total_return := 0, max_drawdown := 0, win_rate := 0, profit_factor := 0,
    total_trades := 0, winning_trades := 0, losing_trades := 0,
    avg_win := 0, avg_loss := 0, equity_curve := [], trades := [] }

/-- Lines 488-493: per-bar simple returns over consecutive equity-curve
points, a pair being skipped when the previous equity is NOT strictly
positive (the source guard is prev_equity > 0). -/
def equity_returns : List ℚ → List ℚ
  | e1 :: e2 :: rest =>
      (if 0 < e1 then [(e2 - e1) / e1] else []) ++ equity_returns (e2 :: rest)
  | _ => []

/-- Follows the words of the spec for the refinement comparison of C7:
returns (e2 - e1) / e1 over consecutive equity points, skipping exactly
the pairs whose previous equity is zero. -/
def equity_returns_spec : List ℚ → List ℚ
  | e1 :: e2 :: rest =>
      (if e1 = 0 then [] else [(e2 - e1) / e1]) ++ equity_returns_spec (e2 :: rest)
  | _ => []

/-- Lines 486-502: the (unrounded) sharpe_ratio value. The source guard
std_return > 0 on the standard deviation is written here as the
equivalent variance guard 0 < v, since std = sqrt v and sqrt v > 0 iff
v > 0 for v ≥ 0. -/
noncomputable def sharpe_ratio_calc (curve : List EquityPoint) : ℝ :=
  if 1 < curve.length then
    let returns := equity_returns (curve.map EquityPoint.equity)
    if returns ≠ [] then
      let avg_return := (npMean returns).getD 0
      let v := (npVar returns).getD 0
      if 0 < v then ((avg_return : ℝ) * 252) / (Real.sqrt (v : ℝ) * Real.sqrt 252)
      else 0
    else 0
  else 0

/-- Lines 504-512: incremental maximum drawdown over the equity curve,
carrying the running maximum drawdown and the running peak. -/
def mddLoop : ℚ → ℚ → List ℚ → ℚ
  | mdd, _, [] => mdd
  | mdd, peak, e :: rest =>
      let peak' := if peak < e then e else peak
      let dd := if 0 < peak' then (peak' - e) / peak' else 0
      mddLoop (max mdd dd) peak' rest

/-- Mirrors BacktestEngine._calculate_metrics (sharpe_ratio aside, see
sharpe_ratio_calc). np.mean of a nonempty list is its rational mean;
the avg guards "if wins else 0" are the getD 0 on the optional mean.
float('inf') for the profit factor is modelled by the none branch of an
Option, and reported as the literal 999.99 exactly as line 519 does.
The total_return division by initial_capital is exact rational division;
a run only reaches it with a nonempty trade list, which requires a
nonzero initial capital. -/
def calculate_metrics (cfg : EngineConfig) (st : BacktestState) :
    BacktestResults :=
  if st.trades = [] then empty_results
  else
    let trades := st.trades
    let total_trades := trades.length
    let winning_trades := (trades.filter (fun t => 0 < t.pnl)).length
    let losing_trades := total_trades - winning_trades
    let win_rate : ℚ :=
      if 0 < total_trades then (winning_trades : ℚ) / (total_trades : ℚ) else 0
    let wins := (trades.filter (fun t => 0 < t.pnl)).map Trade.pnl
    let losses := (trades.filter (fun t => t.pnl < 0)).map (fun t => |t.pnl|)
    let avg_win := (npMean wins).getD 0
    let avg_loss := (npMean losses).getD 0
    let profit_factor_q : Option ℚ :=
      if losses ≠ [] ∧ 0 < losses.sum then some (wins.sum / losses.sum)
      else none
    let final_equity := st.equity
    let total_return := (final_equity - cfg.initial_capital) / cfg.initial_capital
    let max_drawdown :=
      mddLoop 0 cfg.initial_capital (st.equity_curve.map EquityPoint.equity)
    { total_return := round2 (total_return * 100)
      max_drawdown := round2 (max_drawdown * 100)
      win_rate := round2 (win_rate * 100)
      profit_factor :=
        match profit_factor_q with
        | some v => round2 v
        | none => 999.99
      total_trades := total_trades
      winning_trades := winning_trades
      losing_trades := losing_trades
      avg_win := round2 avg_win
      avg_loss := round2 avg_loss
      equity_curve := st.equity_curve.map (fun pt => (pt.timestamp, round2 pt.equity))
      trades := trades.map (fun t =>
        ⟨t.symbol, t.side, round2 t.entry_price, round2 t.exit_price,
         roundDec 4 t.quantity, round2 t.pnl, round2 (t.pnl_percent * 100)⟩) }

/-- BacktestEngine.run_backtest after data acquisition: returns the
empty result when the common length is zero, otherwise simulates and
computes the metrics. The module-level run_backtest wrapper constructs
the engine with the default commission and slippage and a caller-chosen
initial capital; a run of the wrapper is this function at such a
configuration. -/
def run_backtest (cfg : EngineConfig)
    (market_data : List (String × MarketSeries)) (stype : StrategyType)
    (p : StrategyParams) (start_date : ℤ) : Except String BacktestResults :=
  let price_data := market_data.map (fun sd => (sd.1, sd.2.close))
  if min_length price_data = 0 then .ok empty_results
  else do
    let st ← runLoop cfg market_data price_data stype p
      (min_length price_data) 0 (initState cfg start_date)
    .ok (calculate_metrics cfg st)

/-! Concrete market data and states used by the
counterexamples and witnesses below. All runs are single-symbol. -/

/-- Two bars of rising prices. -/
def mktUp : List (String × MarketSeries) := [("A", ⟨[0, 1], [100, 120]⟩)]

/-- Three bars: a rise (trend-following buys at bar 1 with lookback 1)
then a fall (it sells at bar 2), producing one losing round-trip. -/
def mktRound : List (String × MarketSeries) :=
  [("A", ⟨[0, 1, 2], [100, 120, 50]⟩)]

/-- Strategy parameters with a one-bar window. -/
def params1 : StrategyParams := { lookback := 1, period := 1 }

/-- Final state of the two-bar trend-following run on mktUp. -/
def stUpVal : BacktestState :=
  { date := 2, cash := 17996999/200,
    positions := [("A", ⟨"A", 250/3, 6003/50, 1, "long"⟩)],
    equity := 19996999/200, trades := [],
    equity_curve := [⟨0, 100000, 100000, 0⟩,
      ⟨1, 19996999/200, 17996999/200, 10000⟩] }

/-- The one losing trade of the three-bar run on mktRound. -/
def trRound : Trade :=
  ⟨"A", "long", 6003/50, 1999/40, 250/3, 1, 2, -935133/160, -311711/533600⟩

/-- Final state of the three-bar trend-following run on mktRound. -/
def stRoundVal : BacktestState :=
  { date := 3, cash := 75316331/800, positions := [],
    equity := 75316331/800, trades := [trRound],
    equity_curve := [⟨0, 100000, 100000, 0⟩,
      ⟨1, 19996999/200, 17996999/200, 10000⟩,
      ⟨2, 75316331/800, 75316331/800, 0⟩] }

/-- Four bars whose third close is negative: trend-following (lookback
1) buys at bar 1 and sells at bar 2 at the negative close, and the
proceeds of that sell are a large negative amount. -/
def mktNeg : List (String × MarketSeries) :=
  [("A", ⟨[0, 1, 2, 3], [100, 200, -20000, 1]⟩)]

/-- The round-trip trade of the mktNeg run, sold at a negative close. -/
def trNeg : Trade :=
  ⟨"A", "long", 2001/10, -19990, 50, 1, 2, -2017011/2, -672337/6670⟩

/-- Final state of the four-bar trend-following run on mktNeg: cash is
driven negative by the sell at the negative close of bar 2. -/
def stNegVal : BacktestState :=
  { date := 4, cash := -181703101/200, positions := [],
    equity := -181703101/200, trades := [trNeg],
    equity_curve := [⟨0, 100000, 100000, 0⟩,
      ⟨1, 19996999/200, 17996999/200, 10000⟩,
      ⟨2, -181703101/200, -181703101/200, 0⟩,
      ⟨3, -181703101/200, -181703101/200, 0⟩] }

/-- Two bars whose second close is zero; with a one-bar window the mean
reversion strategy signals buy there (0 is below the band at 100). -/
def mktDiv : List (String × MarketSeries) := [("A", ⟨[0, 1], [100, 0]⟩)]

/-- A state with one winning, one zero-pnl and one losing trade. -/
def stMix : BacktestState :=
  { date := 0, cash := 0,
    trades := [⟨"A", "long", 1, 2, 1, 0, 0, 5, 0⟩,
               ⟨"A", "long", 1, 1, 1, 0, 0, 0, 0⟩,
               ⟨"A", "long", 2, 1, 1, 0, 0, -3, 0⟩] }

/-- A state whose single trade wins. -/
def stWin : BacktestState :=
  { date := 0, cash := 0, trades := [⟨"A", "long", 1, 2, 1, 0, 0, 5, 0⟩] }

/-- A state with one zero-pnl trade and one losing trade. -/
def stLoss : BacktestState :=
  { date := 0, cash := 0,
    trades := [⟨"A", "long", 1, 1, 1, 0, 0, 0, 0⟩,
               ⟨"A", "long", 2, 1, 1, 0, 0, -3, 0⟩] }

/-- Three bars chosen so that mean reversion (window 1) buys at bar 1
and sells at bar 2 with the price ratio exactly cancelling the default
commission and slippage: the single recorded trade has pnl exactly 0. -/
def mktZero : List (String × MarketSeries) :=
  [("A", ⟨[0, 1, 2], [2000000, 1997001, 2001000]⟩)]

/-- The zero-pnl round trip of the mktZero run. -/
def trZero : Trade :=
  ⟨"A", "long", 3995999001/2000, 3999999/2, 10000/1997001, 1, 2, 0, 0⟩

/-- Final state of the mktZero run. -/
def stZeroVal : BacktestState :=
  { date := 3, cash := 19997999/200, positions := [],
    equity := 19997999/200, trades := [trZero],
    equity_curve := [⟨0, 100000, 100000, 0⟩,
      ⟨1, 19996999/200, 17996999/200, 10000⟩,
      ⟨2, 19997999/200, 19997999/200, 0⟩] }

/-- A three-point equity curve with two distinct returns. -/
def curveW : List EquityPoint :=
  [⟨0, 100, 0, 0⟩, ⟨1, 110, 0, 0⟩, ⟨2, 132, 0, 0⟩]

/-! Helper lemmas about the list and dict operations. -/
theorem listTake_eq_take {α : Type} : ∀ (n : ℕ) (l : List α),
    listTake n l = List.take n l
  | 0, _ => by simp [listTake]
  | _+1, [] => by simp [listTake]
  | n+1, x :: r => by simp [listTake, listTake_eq_take n r]

theorem listDrop_eq_drop {α : Type} : ∀ (n : ℕ) (l : List α),
    listDrop n l = List.drop n l
  | 0, _ => by simp [listDrop]
  | _+1, [] => by simp [listDrop]
  | n+1, x :: r => by simp [listDrop, listDrop_eq_drop n r]

theorem mem_of_getElem? {α : Type} : ∀ {l : List α} {i : ℕ} {a : α},
    l[i]? = some a → a ∈ l := by
  intro l
  induction l with
  | nil => intro i a h; simp at h
  | cons x r ih =>
    intro i a h
    cases i with
    | zero =>
      simp at h
      exact h ▸ List.mem_cons_self _ _
    | succ n =>
      simp only [List.getElem?_cons_succ] at h
      exact List.mem_cons_of_mem _ (ih h)

theorem lookupA_mem {α : Type} {s : String} {v : α} :
    ∀ {l : List (String × α)}, lookupA l s = some v → (s, v) ∈ l := by
  intro l
  induction l with
  | nil => intro h; simp [lookupA] at h
  | cons a rest ih =>
    obtain ⟨k, w⟩ := a
    intro h
    by_cases hk : k = s
    · subst hk
      simp [lookupA] at h
      subst h
      exact List.mem_cons_self _ _
    · simp only [lookupA, if_neg hk] at h
      exact List.mem_cons_of_mem _ (ih h)

theorem eraseA_subset {α : Type} {s : String} :
    ∀ {l : List (String × α)} {x : String × α}, x ∈ eraseA l s → x ∈ l := by
  intro l
  induction l with
  | nil => intro x h; simp [eraseA] at h
  | cons a rest ih =>
    obtain ⟨k, w⟩ := a
    intro x h
    by_cases hk : k = s
    · rw [eraseA, if_pos hk] at h
      exact List.mem_cons_of_mem _ h
    · rw [eraseA, if_neg hk] at h
      rcases List.mem_cons.mp h with h1 | h2
      · exact h1 ▸ List.mem_cons_self _ _
      · exact List.mem_cons_of_mem _ (ih h2)

theorem lookupA_append_of_none {α : Type} {l : List (String × α)} {s : String}
    (h : lookupA l s = none) (v : α) : lookupA (l ++ [(s, v)]) s = some v := by
  induction l with
  | nil => simp [lookupA]
  | cons a rest ih =>
    obtain ⟨k, w⟩ := a
    by_cases hk : k = s
    · rw [lookupA, if_pos hk] at h
      cases h
    · rw [lookupA, if_neg hk] at h
      simpa [lookupA, if_neg hk] using ih h

theorem minLenAux_le_acc : ∀ (l : List ℕ) (acc : ℕ), minLenAux l acc ≤ acc := by
  intro l
  induction l with
  | nil => intro acc; simp [minLenAux]
  | cons n r ih =>
    intro acc
    calc minLenAux (n :: r) acc = minLenAux r (min acc n) := rfl
    _ ≤ min acc n := ih _
    _ ≤ acc := min_le_left _ _

theorem minLenAux_le_mem : ∀ (l : List ℕ) (acc : ℕ) {n : ℕ}, n ∈ l →
    minLenAux l acc ≤ n := by
  intro l
  induction l with
  | nil => intro acc n h; simp at h
  | cons m r ih =>
    intro acc n h
    rcases List.mem_cons.mp h with h1 | h2
    · subst h1
      calc minLenAux (n :: r) acc = minLenAux r (min acc n) := rfl
      _ ≤ min acc n := minLenAux_le_acc _ _
      _ ≤ n := min_le_right _ _
    · exact ih _ h2

theorem min_length_le {pd : List (String × List ℚ)} {s : String}
    {prices : List ℚ} (h : (s, prices) ∈ pd) :
    min_length pd ≤ prices.length := by
  have hm : prices.length ∈ pd.map (fun sp => sp.2.length) := by
    exact List.mem_map_of_mem _ h
  rw [min_length]
  cases hpd : pd.map (fun sp => sp.2.length) with
  | nil => rw [hpd] at hm; simp at hm
  | cons n r =>
    rw [hpd] at hm
    rcases List.mem_cons.mp hm with h1 | h2
    · exact h1 ▸ minLenAux_le_acc r n
    · exact minLenAux_le_mem r n h2

theorem pySlice_length {α : Type} {l : List α} {a b : ℤ} (ha : 0 ≤ a)
    (hab : a ≤ b) (hb : b ≤ l.length) :
    (pySlice l a b).length = (b - a).toNat := by
  rw [pySlice, listTake_eq_take, listDrop_eq_drop]
  rw [if_neg (by omega), if_neg (by omega)]
  rw [min_eq_left hb]
  rw [min_eq_left (by omega : a ≤ (l.length : ℤ))]
  rw [List.length_take, List.length_drop]
  omega

theorem pySlice_ne_nil {α : Type} {l : List α} {a b : ℤ} (ha : 0 ≤ a)
    (hab : a < b) (hb : b ≤ l.length) : pySlice l a b ≠ [] := by
  have hlen := pySlice_length (l := l) ha (le_of_lt hab) hb
  intro hcon
  rw [hcon] at hlen
  simp at hlen
  omega

/-! Characterization of the execution steps. -/
theorem execBuy_ok_shape {cfg : EngineConfig} {st st' : BacktestState}
    {sym : String} {cp : ℚ} (h : execBuy cfg st sym cp = .ok st') :
    st' = st ∨
    (0 < st.cash * (1/10) / cp ∧ st.cash * (1/10) ≤ st.cash ∧
     st.cash * (1/10) / cp * (cp * (1 + cfg.slippage)) * (1 + cfg.commission)
       ≤ st.cash ∧
     st' = { st with
       cash := st.cash -
         st.cash * (1/10) / cp * (cp * (1 + cfg.slippage)) * (1 + cfg.commission),
       positions := st.positions ++
         [(sym, ⟨sym, st.cash * (1/10) / cp, cp * (1 + cfg.slippage),
           st.date, "long"⟩)] }) := by
  unfold execBuy at h
  by_cases hcp : cp = 0
  · rw [if_pos hcp] at h
    cases h
  · rw [if_neg hcp] at h
    by_cases hq : 0 < st.cash * (1/10) / cp ∧ st.cash * (1/10) ≤ st.cash
    · rw [if_pos hq] at h
      by_cases hc : st.cash * (1/10) / cp * (cp * (1 + cfg.slippage)) *
          (1 + cfg.commission) ≤ st.cash
      · rw [if_pos hc] at h
        right
        injection h with h
        exact ⟨hq.1, hq.2, hc, h.symm⟩
      · rw [if_neg hc] at h
        injection h with h
        exact Or.inl h.symm
    · rw [if_neg hq] at h
      injection h with h
      exact Or.inl h.symm

theorem execSymbol_ok_shape {cfg : EngineConfig}
    {pd : List (String × List ℚ)} {i : ℕ} {st st' : BacktestState}
    {sym : String} {sig : Signal}
    (h : execSymbol cfg pd i st sym sig = .ok st') :
    st' = st ∨
    ∃ prices cp, lookupA pd sym = some prices ∧ prices[i]? = some cp ∧
      ((sig = .buy ∧ lookupA st.positions sym = none ∧ cp ≠ 0 ∧
        execBuy cfg st sym cp = .ok st') ∨
       (∃ pos, sig = .sell ∧ lookupA st.positions sym = some pos ∧
        st' = execSell cfg st sym cp pos)) := by
  unfold execSymbol at h
  cases hlook : lookupA pd sym with
  | none =>
    rw [hlook] at h
    simp [Bind.bind, Except.bind] at h
  | some prices =>
    rw [hlook] at h
    cases hget : prices[i]? with
    | none =>
      simp [pyGet, hget, Bind.bind, Except.bind] at h
    | some cp =>
      simp only [pyGet, hget, Bind.bind, Except.bind] at h
      cases sig with
      | buy =>
        cases hpos : lookupA st.positions sym with
        | none =>
          rw [hpos] at h
          have hcp : cp ≠ 0 := by
            intro hcp
            rw [hcp] at h
            simp [execBuy] at h
          exact Or.inr ⟨prices, cp, rfl, hget, Or.inl ⟨rfl, rfl, hcp, h⟩⟩
        | some pos =>
          rw [hpos] at h
          injection h with h
          exact Or.inl h.symm
      | sell =>
        cases hpos : lookupA st.positions sym with
        | none =>
          rw [hpos] at h
          injection h with h
          exact Or.inl h.symm
        | some pos =>
          rw [hpos] at h
          injection h with h
          exact Or.inr ⟨prices, cp, rfl, hget,
            Or.inr ⟨pos, rfl, rfl, h.symm⟩⟩
      | hold =>
        cases hpos : lookupA st.positions sym with
        | none =>
          rw [hpos] at h
          injection h with h
          exact Or.inl h.symm
        | some pos =>
          rw [hpos] at h
          injection h with h
          exact Or.inl h.symm

theorem execSignals_pres {cfg : EngineConfig} {pd : List (String × List ℚ)}
    {i : ℕ} {P : BacktestState → Prop}
    (hstep : ∀ st st' sym sig, P st →
      execSymbol cfg pd i st sym sig = .ok st' → P st') :
    ∀ (sigs : List (String × Signal)) (st st' : BacktestState), P st →
      execSignals cfg pd i st sigs = .ok st' → P st' := by
  intro sigs
  induction sigs with
  | nil =>
    intro st st' hP h
    rw [execSignals] at h
    injection h with h
    exact h ▸ hP
  | cons x rest ih =>
    intro st st' hP h
    obtain ⟨sym, sig⟩ := x
    rw [execSignals] at h
    cases hstep1 : execSymbol cfg pd i st sym sig with
    | error e => rw [hstep1] at h; simp [Bind.bind, Except.bind] at h
    | ok stm =>
      rw [hstep1] at h
      simp only [Bind.bind, Except.bind] at h
      exact ih stm st' (hstep st stm sym sig hP hstep1) h

theorem execBar_ok_shape {cfg : EngineConfig}
    {md : List (String × MarketSeries)} {pd : List (String × List ℚ)}
    {stype : StrategyType} {p : StrategyParams} {i : ℕ}
    {st st' : BacktestState}
    (h : execBar cfg md pd stype p i st = .ok st') :
    ∃ sigs stm ts, generate_signals stype p pd i = .ok sigs ∧
      execSignals cfg pd i st sigs = .ok stm ∧ tsOf md i = .ok ts ∧
      st' = { stm with
        equity := stm.cash + positions_value_calc stm.positions pd i,
        equity_curve := stm.equity_curve ++
          [⟨ts, stm.cash + positions_value_calc stm.positions pd i, stm.cash,
            positions_value_calc stm.positions pd i⟩],
        date := stm.date + 1 } := by
  unfold execBar at h
  cases hsig : generate_signals stype p pd i with
  | error e => rw [hsig] at h; simp [Bind.bind, Except.bind] at h
  | ok sigs =>
    rw [hsig] at h
    simp only [Bind.bind, Except.bind] at h
    cases hex : execSignals cfg pd i st sigs with
    | error e => rw [hex] at h; simp at h
    | ok stm =>
      rw [hex] at h
      simp only [] at h
      cases hts : tsOf md i with
      | error e => rw [hts] at h; simp at h
      | ok ts =>
        rw [hts] at h
        simp only [] at h
        injection h with h
        exact ⟨sigs, stm, ts, rfl, hex, rfl, h.symm⟩

theorem runLoop_pres {cfg : EngineConfig}
    {md : List (String × MarketSeries)} {pd : List (String × List ℚ)}
    {stype : StrategyType} {p : StrategyParams} {P : BacktestState → Prop}
    (hbar : ∀ i st st', P st →
      execBar cfg md pd stype p i st = .ok st' → P st') :
    ∀ (k i : ℕ) (st st' : BacktestState), P st →
      runLoop cfg md pd stype p k i st = .ok st' → P st' := by
  intro k
  induction k with
  | zero =>
    intro i st st' hP h
    rw [runLoop] at h
    injection h with h
    exact h ▸ hP
  | succ n ih =>
    intro i st st' hP h
    rw [runLoop] at h
    cases hb : execBar cfg md pd stype p i st with
    | error e => rw [hb] at h; simp [Bind.bind, Except.bind] at h
    | ok stm =>
      rw [hb] at h
      simp only [Bind.bind, Except.bind] at h
      exact ih (i+1) stm st' (hbar i st stm hP hb) h

/-! Totality of the loop body on usable data: lemmas showing that every
step succeeds when all close prices are nonzero, the index is in range
for every series, the lookback window is positive and the timestamp
array is long enough. -/
theorem lookupA_exists_of_mem_keys {α : Type} {s : String} :
    ∀ {l : List (String × α)}, s ∈ l.map Prod.fst →
    ∃ v, lookupA l s = some v := by
  intro l
  induction l with
  | nil => intro h; simp at h
  | cons a rest ih =>
    obtain ⟨k, w⟩ := a
    intro h
    by_cases hk : k = s
    · exact ⟨w, by rw [lookupA, if_pos hk]⟩
    · rcases List.mem_cons.mp h with h1 | h2
      · exact absurd h1.symm hk
      · obtain ⟨v, hv⟩ := ih h2
        exact ⟨v, by rw [lookupA, if_neg hk]; exact hv⟩

theorem execBuy_ok_exists {cfg : EngineConfig} {st : BacktestState}
    {sym : String} {cp : ℚ} (hcp : cp ≠ 0) :
    ∃ st', execBuy cfg st sym cp = .ok st' := by
  unfold execBuy
  rw [if_neg hcp]
  dsimp only []
  split_ifs <;> exact ⟨_, rfl⟩

theorem execSymbol_ok_exists {cfg : EngineConfig}
    {pd : List (String × List ℚ)} {i : ℕ} {st : BacktestState}
    {sym : String} {sig : Signal} {prices : List ℚ} {cp : ℚ}
    (hlook : lookupA pd sym = some prices) (hget : prices[i]? = some cp)
    (hcp : cp ≠ 0) :
    ∃ st', execSymbol cfg pd i st sym sig = .ok st' := by
  unfold execSymbol
  rw [hlook]
  simp only [pyGet, hget, Bind.bind, Except.bind]
  cases sig <;> cases hpos : lookupA st.positions sym <;> simp only []
  case buy.none => exact execBuy_ok_exists hcp
  all_goals exact ⟨_, rfl⟩

theorem execSignals_ok_exists {cfg : EngineConfig}
    {pd : List (String × List ℚ)} {i : ℕ} :
    ∀ (sigs : List (String × Signal)) (st : BacktestState),
      (∀ x ∈ sigs, ∃ prices cp, lookupA pd x.1 = some prices ∧
        prices[i]? = some cp ∧ cp ≠ 0) →
      ∃ st', execSignals cfg pd i st sigs = .ok st' := by
  intro sigs
  induction sigs with
  | nil => intro st _; exact ⟨st, rfl⟩
  | cons x rest ih =>
    intro st hx
    obtain ⟨prices, cp, hlook, hget, hcp⟩ := hx x (List.mem_cons_self _ _)
    obtain ⟨stm, hm⟩ :=
      @execSymbol_ok_exists cfg pd i st x.1 x.2 prices cp hlook hget hcp
    obtain ⟨st', h'⟩ := ih stm (fun y hy => hx y (List.mem_cons_of_mem _ hy))
    refine ⟨st', ?_⟩
    obtain ⟨sym, sig⟩ := x
    rw [execSignals, hm]
    simpa [Bind.bind, Except.bind] using h'

theorem mapSignals_keys {f : List ℚ → Except String Signal} :
    ∀ {data : List (String × List ℚ)} {sigs : List (String × Signal)},
      mapSignals f data = .ok sigs →
      sigs.map Prod.fst = data.map Prod.fst := by
  intro data
  induction data with
  | nil =>
    intro sigs h
    rw [mapSignals] at h
    injection h with h
    rw [← h]
    rfl
  | cons a rest ih =>
    intro sigs h
    obtain ⟨s, prices⟩ := a
    rw [mapSignals] at h
    cases hf : f prices with
    | error e => rw [hf] at h; simp [Bind.bind, Except.bind] at h
    | ok sig =>
      rw [hf] at h
      simp only [Bind.bind, Except.bind] at h
      cases hrest : mapSignals f rest with
      | error e => rw [hrest] at h; simp at h
      | ok tail =>
        rw [hrest] at h
        simp only [] at h
        injection h with h
        rw [← h]
        simp [ih hrest]

theorem mapSignals_ok_exists {f : List ℚ → Except String Signal} :
    ∀ {data : List (String × List ℚ)},
      (∀ sp ∈ data, ∃ s, f sp.2 = .ok s) →
      ∃ sigs, mapSignals f data = .ok sigs := by
  intro data
  induction data with
  | nil => intro _; exact ⟨[], rfl⟩
  | cons a rest ih =>
    intro h
    obtain ⟨s, hs⟩ := h a (List.mem_cons_self _ _)
    obtain ⟨tail, ht⟩ := ih (fun y hy => h y (List.mem_cons_of_mem _ hy))
    refine ⟨(a.1, s) :: tail, ?_⟩
    obtain ⟨k, prices⟩ := a
    rw [mapSignals, hs]
    simp only [Bind.bind, Except.bind, ht]

theorem generate_signals_keys {stype : StrategyType} {p : StrategyParams}
    {data : List (String × List ℚ)} {i : ℕ} {sigs : List (String × Signal)}
    (h : generate_signals stype p data i = .ok sigs) :
    sigs.map Prod.fst = data.map Prod.fst := by
  cases stype <;> simp only [generate_signals] at h
  case mean_reversion => exact mapSignals_keys h
  case trend_following => exact mapSignals_keys h
  all_goals
    injection h with h
    rw [← h]
    simp

theorem meanReversionSignal_ok_exists {prices : List ℚ} {i : ℕ}
    {p : StrategyParams} (hi : i < prices.length) :
    ∃ s, meanReversionSignal prices i p = .ok s := by
  unfold meanReversionSignal
  by_cases h1 : (i : ℤ) < p.period
  · rw [if_pos h1]
    exact ⟨_, rfl⟩
  · rw [if_neg h1]
    simp only [pyGet, List.getElem?_eq_getElem hi, Bind.bind, Except.bind]
    cases npMean (pySlice prices ((i : ℤ) - p.period) i) <;>
      cases npVar (pySlice prices ((i : ℤ) - p.period) i) <;>
      simp only []
    all_goals first
      | (split_ifs <;> exact ⟨_, rfl⟩)
      | exact ⟨_, rfl⟩

theorem trendSignal_ok_exists {prices : List ℚ} {i : ℕ}
    {p : StrategyParams} (hi : i < prices.length) (hlb : 0 < p.lookback) :
    ∃ s, trendSignal prices i p = .ok s := by
  unfold trendSignal
  by_cases h1 : (i : ℤ) < p.lookback
  · rw [if_pos h1]
    exact ⟨_, rfl⟩
  · rw [if_neg h1]
    have hne : pySlice prices ((i : ℤ) - p.lookback) i ≠ [] := by
      refine pySlice_ne_nil (by omega) (by omega) (by exact_mod_cast le_of_lt hi)
    obtain ⟨x, r, hxr⟩ := List.exists_cons_of_ne_nil hne
    rw [hxr]
    simp only [pyMax, pyMin, pyGet, List.getElem?_eq_getElem hi,
      Bind.bind, Except.bind]
    split_ifs <;> exact ⟨_, rfl⟩

theorem generate_signals_ok_exists {stype : StrategyType}
    {p : StrategyParams} {pd : List (String × List ℚ)} {i : ℕ}
    (hpd : ∀ sp ∈ pd, i < sp.2.length) (hlb : 0 < p.lookback) :
    ∃ sigs, generate_signals stype p pd i = .ok sigs := by
  cases stype <;> simp only [generate_signals]
  case mean_reversion =>
    exact mapSignals_ok_exists
      (fun sp hsp => meanReversionSignal_ok_exists (hpd sp hsp))
  case trend_following =>
    exact mapSignals_ok_exists
      (fun sp hsp => trendSignal_ok_exists (hpd sp hsp) hlb)
  all_goals exact ⟨_, rfl⟩

theorem execSell_cash {cfg : EngineConfig} {st : BacktestState}
    {sym : String} {cp : ℚ} {pos : Position} :
    (execSell cfg st sym cp pos).cash =
    st.cash + pos.quantity * (cp * (1 - cfg.slippage)) * (1 - cfg.commission) :=
  rfl

theorem execSell_positions {cfg : EngineConfig} {st : BacktestState}
    {sym : String} {cp : ℚ} {pos : Position} :
    (execSell cfg st sym cp pos).positions = eraseA st.positions sym := rfl

theorem execSell_trades {cfg : EngineConfig} {st : BacktestState}
    {sym : String} {cp : ℚ} {pos : Position} :
    (execSell cfg st sym cp pos).trades = st.trades ++
      [⟨sym, "long", pos.entry_price, cp * (1 - cfg.slippage), pos.quantity,
        pos.entry_date, st.date,
        pos.quantity * (cp * (1 - cfg.slippage)) * (1 - cfg.commission) -
          pos.quantity * pos.entry_price,
        if 0 < pos.quantity * pos.entry_price then
          (pos.quantity * (cp * (1 - cfg.slippage)) * (1 - cfg.commission) -
            pos.quantity * pos.entry_price) / (pos.quantity * pos.entry_price)
        else 0⟩] := rfl

theorem execSell_curve {cfg : EngineConfig} {st : BacktestState}
    {sym : String} {cp : ℚ} {pos : Position} :
    (execSell cfg st sym cp pos).equity_curve = st.equity_curve := rfl

theorem tsOf_ok_exists {md : List (String × MarketSeries)} {i : ℕ}
    (h : ∀ sm ∈ md, i < sm.2.timestamps.length) :
    ∃ t, tsOf md i = .ok t := by
  cases md with
  | nil => exact ⟨(i : ℤ), rfl⟩
  | cons a rest =>
    have hi := h a (List.mem_cons_self _ _)
    exact ⟨a.2.timestamps[i], by
      rw [tsOf]
      simp only [pyGet, List.getElem?_eq_getElem hi]⟩

theorem execBar_ok_exists {cfg : EngineConfig}
    {md : List (String × MarketSeries)} {pd : List (String × List ℚ)}
    {stype : StrategyType} {p : StrategyParams} {i : ℕ}
    {st : BacktestState}
    (hpd : ∀ sp ∈ pd, i < sp.2.length ∧ ∀ q ∈ sp.2, q ≠ 0)
    (hts : ∀ sm ∈ md, i < sm.2.timestamps.length) (hlb : 0 < p.lookback) :
    ∃ st', execBar cfg md pd stype p i st = .ok st' := by
  obtain ⟨sigs, hs⟩ :=
    @generate_signals_ok_exists stype p pd i
      (fun sp h => (hpd sp h).1) hlb
  have hkeys := generate_signals_keys hs
  have hcond : ∀ x ∈ sigs, ∃ prices cp, lookupA pd x.1 = some prices ∧
      prices[i]? = some cp ∧ cp ≠ 0 := by
    intro x hx
    have hmemk : x.1 ∈ pd.map Prod.fst := by
      rw [← hkeys]
      exact List.mem_map_of_mem _ hx
    obtain ⟨prices, hlook⟩ := lookupA_exists_of_mem_keys hmemk
    have hmem := lookupA_mem hlook
    have hlen := (hpd _ hmem).1
    refine ⟨prices, prices[i], hlook, List.getElem?_eq_getElem hlen, ?_⟩
    exact (hpd _ hmem).2 _ (List.getElem_mem hlen)
  obtain ⟨stm, hex⟩ := @execSignals_ok_exists cfg pd i sigs st hcond
  obtain ⟨t, ht⟩ := tsOf_ok_exists hts
  refine ⟨{ stm with
      equity := stm.cash + positions_value_calc stm.positions pd i,
      equity_curve := stm.equity_curve ++
        [⟨t, stm.cash + positions_value_calc stm.positions pd i, stm.cash,
          positions_value_calc stm.positions pd i⟩],
      date := stm.date + 1 }, ?_⟩
  unfold execBar
  rw [hs]
  simp only [Bind.bind, Except.bind, hex, ht]

theorem runLoop_ok_exists {cfg : EngineConfig}
    {md : List (String × MarketSeries)} {pd : List (String × List ℚ)}
    {stype : StrategyType} {p : StrategyParams} {n : ℕ}
    (hbar : ∀ (i : ℕ) (st : BacktestState), i < n →
      ∃ st', execBar cfg md pd stype p i st = .ok st') :
    ∀ (k i : ℕ) (st : BacktestState), i + k ≤ n →
      ∃ st', runLoop cfg md pd stype p k i st = .ok st' := by
  intro k
  induction k with
  | zero => intro i st _; exact ⟨st, rfl⟩
  | succ m ih =>
    intro i st hik
    obtain ⟨stm, hm⟩ := hbar i st (by omega)
    obtain ⟨st', h'⟩ := ih (i+1) stm (by omega)
    refine ⟨st', ?_⟩
    rw [runLoop, hm]
    simpa [Bind.bind, Except.bind] using h'

/-! Invariant preservation along the simulation. -/
theorem execSymbol_curve_const {cfg : EngineConfig}
    {pd : List (String × List ℚ)} {i : ℕ} {st st' : BacktestState}
    {sym : String} {sig : Signal}
    (h : execSymbol cfg pd i st sym sig = .ok st') :
    st'.equity_curve = st.equity_curve := by
  rcases execSymbol_ok_shape h with rfl | ⟨prices, cp, hlook, hget, hbr⟩
  · rfl
  rcases hbr with ⟨_, _, _, hbuy⟩ | ⟨pos, _, hpos, rfl⟩
  · rcases execBuy_ok_shape hbuy with rfl | ⟨_, _, _, rfl⟩
    · rfl
    · rfl
  · exact execSell_curve

theorem execSymbol_trades_mono {cfg : EngineConfig}
    {pd : List (String × List ℚ)} {i : ℕ} {st st' : BacktestState}
    {sym : String} {sig : Signal}
    (h : execSymbol cfg pd i st sym sig = .ok st') :
    ∃ l, st'.trades = st.trades ++ l := by
  rcases execSymbol_ok_shape h with rfl | ⟨prices, cp, hlook, hget, hbr⟩
  · exact ⟨[], by simp⟩
  rcases hbr with ⟨_, _, _, hbuy⟩ | ⟨pos, _, hpos, rfl⟩
  · rcases execBuy_ok_shape hbuy with rfl | ⟨_, _, _, rfl⟩
    · exact ⟨[], by simp⟩
    · exact ⟨[], by simp⟩
  · exact ⟨_, execSell_trades⟩

theorem execSymbol_pres_cash {cfg : EngineConfig}
    {pd : List (String × List ℚ)} {i : ℕ}
    (hpd : ∀ sp ∈ pd, ∀ q ∈ sp.2, 0 ≤ q)
    (hs : cfg.slippage ≤ 1) (hc : cfg.commission ≤ 1) :
    ∀ (st st' : BacktestState) (sym : String) (sig : Signal),
      (0 ≤ st.cash ∧ (∀ sp ∈ st.positions, 0 < sp.2.quantity) ∧
        ∀ pt ∈ st.equity_curve, 0 ≤ pt.cash) →
      execSymbol cfg pd i st sym sig = .ok st' →
      0 ≤ st'.cash ∧ (∀ sp ∈ st'.positions, 0 < sp.2.quantity) ∧
        ∀ pt ∈ st'.equity_curve, 0 ≤ pt.cash := by
  intro st st' sym sig hP h
  have hcurve := execSymbol_curve_const h
  rcases execSymbol_ok_shape h with rfl | ⟨prices, cp, hlook, hget, hbr⟩
  · exact hP
  have hcpn : 0 ≤ cp := hpd _ (lookupA_mem hlook) _ (mem_of_getElem? hget)
  rcases hbr with ⟨_, _, _, hbuy⟩ | ⟨pos, _, hpos, rfl⟩
  · rcases execBuy_ok_shape hbuy with rfl | ⟨hq, _, hcost, rfl⟩
    · exact hP
    · refine ⟨by simp only []; linarith [hP.1], ?_, ?_⟩
      · intro sp hsp
        simp only [] at hsp
        rcases List.mem_append.mp hsp with h1 | h2
        · exact hP.2.1 sp h1
        · rw [List.mem_singleton.mp h2]
          exact hq
      · intro pt hpt
        simp only [] at hpt
        exact hP.2.2 pt hpt
  · have hqp : 0 < pos.quantity := hP.2.1 _ (lookupA_mem hpos)
    refine ⟨?_, ?_, ?_⟩
    · rw [execSell_cash]
      have hpr : 0 ≤ pos.quantity * (cp * (1 - cfg.slippage)) *
          (1 - cfg.commission) := by
        apply mul_nonneg
        · apply mul_nonneg (le_of_lt hqp)
          apply mul_nonneg hcpn
          linarith
        · linarith
      linarith [hP.1]
    · intro sp hsp
      rw [execSell_positions] at hsp
      exact hP.2.1 sp (eraseA_subset hsp)
    · intro pt hpt
      rw [execSell_curve] at hpt
      exact hP.2.2 pt hpt

theorem execBar_pres_cash {cfg : EngineConfig}
    {md : List (String × MarketSeries)} {pd : List (String × List ℚ)}
    {stype : StrategyType} {p : StrategyParams} {i : ℕ}
    (hpd : ∀ sp ∈ pd, ∀ q ∈ sp.2, 0 ≤ q)
    (hs : cfg.slippage ≤ 1) (hc : cfg.commission ≤ 1) :
    ∀ (st st' : BacktestState),
      (0 ≤ st.cash ∧ (∀ sp ∈ st.positions, 0 < sp.2.quantity) ∧
        ∀ pt ∈ st.equity_curve, 0 ≤ pt.cash) →
      execBar cfg md pd stype p i st = .ok st' →
      0 ≤ st'.cash ∧ (∀ sp ∈ st'.positions, 0 < sp.2.quantity) ∧
        ∀ pt ∈ st'.equity_curve, 0 ≤ pt.cash := by
  intro st st' hP h
  obtain ⟨sigs, stm, ts, hsig, hex, hts, rfl⟩ := execBar_ok_shape h
  have hstm := execSignals_pres (execSymbol_pres_cash hpd hs hc) sigs st stm hP hex
  refine ⟨hstm.1, hstm.2.1, ?_⟩
  intro pt hpt
  simp only [] at hpt
  rcases List.mem_append.mp hpt with h1 | h2
  · exact hstm.2.2 pt h1
  · rw [List.mem_singleton.mp h2]
    exact hstm.1

theorem execSymbol_pres_sides {cfg : EngineConfig}
    {pd : List (String × List ℚ)} {i : ℕ} :
    ∀ (st st' : BacktestState) (sym : String) (sig : Signal),
      ((∀ sp ∈ st.positions, sp.2.side = "long") ∧
        ∀ t ∈ st.trades, t.side = "long") →
      execSymbol cfg pd i st sym sig = .ok st' →
      (∀ sp ∈ st'.positions, sp.2.side = "long") ∧
        ∀ t ∈ st'.trades, t.side = "long" := by
  intro st st' sym sig hP h
  rcases execSymbol_ok_shape h with rfl | ⟨prices, cp, hlook, hget, hbr⟩
  · exact hP
  rcases hbr with ⟨_, _, _, hbuy⟩ | ⟨pos, _, hpos, rfl⟩
  · rcases execBuy_ok_shape hbuy with rfl | ⟨hq, _, hcost, rfl⟩
    · exact hP
    · refine ⟨?_, ?_⟩
      · intro sp hsp
        simp only [] at hsp
        rcases List.mem_append.mp hsp with h1 | h2
        · exact hP.1 sp h1
        · rw [List.mem_singleton.mp h2]
      · intro t ht
        simp only [] at ht
        exact hP.2 t ht
  · refine ⟨?_, ?_⟩
    · intro sp hsp
      rw [execSell_positions] at hsp
      exact hP.1 sp (eraseA_subset hsp)
    · intro t ht
      rw [execSell_trades] at ht
      rcases List.mem_append.mp ht with h1 | h2
      · exact hP.2 t h1
      · rw [List.mem_singleton.mp h2]

theorem execBar_pres_sides {cfg : EngineConfig}
    {md : List (String × MarketSeries)} {pd : List (String × List ℚ)}
    {stype : StrategyType} {p : StrategyParams} {i : ℕ} :
    ∀ (st st' : BacktestState),
      ((∀ sp ∈ st.positions, sp.2.side = "long") ∧
        ∀ t ∈ st.trades, t.side = "long") →
      execBar cfg md pd stype p i st = .ok st' →
      (∀ sp ∈ st'.positions, sp.2.side = "long") ∧
        ∀ t ∈ st'.trades, t.side = "long" := by
  intro st st' hP h
  obtain ⟨sigs, stm, ts, hsig, hex, hts, rfl⟩ := execBar_ok_shape h
  exact execSignals_pres execSymbol_pres_sides sigs st stm hP hex

theorem execBar_pres_curveEq {cfg : EngineConfig}
    {md : List (String × MarketSeries)} {pd : List (String × List ℚ)}
    {stype : StrategyType} {p : StrategyParams} {i : ℕ} :
    ∀ (st st' : BacktestState),
      (∀ pt ∈ st.equity_curve, pt.equity = pt.cash + pt.positions_value) →
      execBar cfg md pd stype p i st = .ok st' →
      ∀ pt ∈ st'.equity_curve, pt.equity = pt.cash + pt.positions_value := by
  intro st st' hP h
  obtain ⟨sigs, stm, ts, hsig, hex, hts, rfl⟩ := execBar_ok_shape h
  have hstm := execSignals_pres
    (P := fun s => ∀ pt ∈ s.equity_curve,
      pt.equity = pt.cash + pt.positions_value)
    (fun s s' sym sig hp hh => by
      simp only [] at hp ⊢
      rw [execSymbol_curve_const hh]
      exact hp) sigs st stm hP hex
  intro pt hpt
  simp only [] at hpt
  rcases List.mem_append.mp hpt with h1 | h2
  · exact hstm pt h1
  · rw [List.mem_singleton.mp h2]

theorem execSymbol_pres_untouched {cfg : EngineConfig}
    {pd : List (String × List ℚ)} {i : ℕ} {c0 : ℚ}
    (hpd : ∀ sp ∈ pd, ∀ q ∈ sp.2, 0 < q) (hc0 : c0 < 0) :
    ∀ (st st' : BacktestState) (sym : String) (sig : Signal),
      (st.cash = c0 ∧ st.positions = [] ∧ st.trades = []) →
      execSymbol cfg pd i st sym sig = .ok st' →
      st'.cash = c0 ∧ st'.positions = [] ∧ st'.trades = [] := by
  intro st st' sym sig hP h
  rcases execSymbol_ok_shape h with rfl | ⟨prices, cp, hlook, hget, hbr⟩
  · exact hP
  have hcp : 0 < cp := hpd _ (lookupA_mem hlook) _ (mem_of_getElem? hget)
  rcases hbr with ⟨_, _, _, hbuy⟩ | ⟨pos, _, hpos, rfl⟩
  · rcases execBuy_ok_shape hbuy with rfl | ⟨hq, _, _, rfl⟩
    · exact hP
    · exfalso
      rw [hP.1] at hq
      have : c0 * (1/10) / cp < 0 :=
        div_neg_of_neg_of_pos (by linarith) hcp
      linarith
  · exfalso
    rw [hP.2.1] at hpos
    simp [lookupA] at hpos

theorem execBar_pres_untouched {cfg : EngineConfig}
    {md : List (String × MarketSeries)} {pd : List (String × List ℚ)}
    {stype : StrategyType} {p : StrategyParams} {i : ℕ} {c0 : ℚ}
    (hpd : ∀ sp ∈ pd, ∀ q ∈ sp.2, 0 < q) (hc0 : c0 < 0) :
    ∀ (st st' : BacktestState),
      (st.cash = c0 ∧ st.positions = [] ∧ st.trades = []) →
      execBar cfg md pd stype p i st = .ok st' →
      st'.cash = c0 ∧ st'.positions = [] ∧ st'.trades = [] := by
  intro st st' hP h
  obtain ⟨sigs, stm, ts, hsig, hex, hts, rfl⟩ := execBar_ok_shape h
  exact execSignals_pres (execSymbol_pres_untouched hpd hc0) sigs st stm hP hex

/-! Support lemmas for the sharpe-ratio claim. -/
theorem equity_returns_zip : ∀ es : List ℚ,
    equity_returns es = (es.zip es.tail).filterMap
      (fun pr => if 0 < pr.1 then some ((pr.2 - pr.1) / pr.1) else none)
  | [] => rfl
  | [_] => rfl
  | e1 :: e2 :: rest => by
      have ih := equity_returns_zip (e2 :: rest)
      by_cases h : 0 < e1 <;>
        simp [equity_returns, ih, h, List.filterMap_cons]

theorem npVar_singleton (x : ℚ) : npVar [x] = some 0 := by
  norm_num [npVar]

theorem mapSignals_hold {f : List ℚ → Except String Signal}
    (hf : ∀ prices, f prices = .ok .hold) :
    ∀ data : List (String × List ℚ),
      mapSignals f data = .ok (data.map (fun sp => (sp.1, Signal.hold)))
  | [] => rfl
  | (s, prices) :: rest => by
      rw [mapSignals, hf]
      simp only [Bind.bind, Except.bind, mapSignals_hold hf rest,
        List.map_cons]

/-- Justification of the exact-arithmetic band decision: gtMulSqrt
decides the real comparison k * sqrt v < x. -/
theorem gtMulSqrt_iff (x k v : ℚ) (hv : 0 ≤ v) :
    gtMulSqrt x k v = true ↔ (k : ℝ) * Real.sqrt (v : ℝ) < (x : ℝ) := by
  have hv' : (0:ℝ) ≤ (v:ℝ) := by exact_mod_cast hv
  have hs : Real.sqrt (v:ℝ) ^ 2 = (v:ℝ) := Real.sq_sqrt hv'
  have hsn : 0 ≤ Real.sqrt (v:ℝ) := Real.sqrt_nonneg _
  unfold gtMulSqrt
  by_cases hk : 0 ≤ k
  · rw [if_pos hk]
    have hk' : (0:ℝ) ≤ (k:ℝ) := by exact_mod_cast hk
    have hks : 0 ≤ (k:ℝ) * Real.sqrt v := mul_nonneg hk' hsn
    simp only [Bool.and_eq_true, decide_eq_true_eq]
    constructor
    · rintro ⟨hx, hlt⟩
      have hx' : (0:ℝ) < x := by exact_mod_cast hx
      have hlt' : ((k:ℝ) * Real.sqrt v)^2 < (x:ℝ)^2 := by
        rw [mul_pow, hs]
        exact_mod_cast hlt
      exact lt_of_pow_lt_pow_left₀ 2 (le_of_lt hx') hlt'
    · intro hlt
      have hx' : (0:ℝ) < (x:ℝ) := lt_of_le_of_lt hks hlt
      refine ⟨by exact_mod_cast hx', ?_⟩
      have hsq : ((k:ℝ) * Real.sqrt v)^2 < (x:ℝ)^2 := by
        apply pow_lt_pow_left₀ hlt hks
        norm_num
      rw [mul_pow, hs] at hsq
      exact_mod_cast hsq
  · rw [if_neg hk]
    have hk' : (k:ℝ) < 0 := by exact_mod_cast (not_le.mp hk)
    simp only [Bool.or_eq_true, Bool.and_eq_true, decide_eq_true_eq]
    constructor
    · rintro ((hx | ⟨hx0, hv0⟩) | hlt)
      · have hx' : (0:ℝ) < x := by exact_mod_cast hx
        nlinarith [mul_nonneg (neg_nonneg.mpr (le_of_lt hk')) hsn]
      · have hsv : 0 < Real.sqrt v :=
          Real.sqrt_pos.mpr (by exact_mod_cast hv0)
        have hx0' : (0:ℝ) ≤ x := by exact_mod_cast hx0
        nlinarith [mul_neg_of_neg_of_pos hk' hsv]
      · have hlt' : (x:ℝ)^2 < (k:ℝ)^2 * v := by exact_mod_cast hlt
        have hvpos : 0 < (v:ℝ) := by nlinarith [sq_nonneg (x:ℝ)]
        have hsv : 0 < Real.sqrt v := Real.sqrt_pos.mpr hvpos
        have habs : (x:ℝ)^2 < (-(k:ℝ) * Real.sqrt v)^2 := by
          rw [mul_pow, hs]
          nlinarith
        have hmk : 0 ≤ -(k:ℝ) * Real.sqrt v :=
          mul_nonneg (by linarith) hsn
        have := abs_lt_of_sq_lt_sq habs hmk
        have hgt := (abs_lt.mp this).1
        nlinarith
    · intro hlt
      by_cases hx : 0 < x
      · exact Or.inl (Or.inl hx)
      · by_cases hv0 : 0 < v
        · by_cases hx0 : 0 ≤ x
          · exact Or.inl (Or.inr ⟨hx0, hv0⟩)
          · right
            have hx0' : (x:ℝ) < 0 := by
              have := not_le.mp hx0
              exact_mod_cast this
            have hsv : 0 < Real.sqrt v :=
              Real.sqrt_pos.mpr (by exact_mod_cast hv0)
            have hgoal : (x:ℝ)^2 < (k:ℝ)^2 * v := by
              nlinarith [hlt, hs]
            exact_mod_cast hgoal
        · exfalso
          have hveq : v = 0 := le_antisymm (not_lt.mp hv0) hv
          rw [hveq] at hlt
          simp [Real.sqrt_zero] at hlt
          have : (0:ℝ) < x := by simpa using hlt
          exact hx (by exact_mod_cast this)

/-- Evaluation of the two-bar run. -/
theorem runSim_mktUp_eq :
    runSim {} mktUp .trend_following params1 0 = .ok stUpVal := by
  norm_num [runSim, mktUp, params1, stUpVal, min_length, minLenAux, runLoop,
    execBar, execSymbol, execBuy, execSell, execSignals, generate_signals,
    mapSignals, trendSignal, pyMax, pyMin, pySlice, listTake, listDrop,
    pyGet, lookupA, eraseA, positions_value_calc, tsOf, initState,
    Bind.bind, Except.bind, max_def, min_def]

/-- Evaluation of the three-bar round-trip run. -/
theorem runSim_mktRound_eq :
    runSim {} mktRound .trend_following params1 0 = .ok stRoundVal := by
  norm_num [runSim, mktRound, params1, stRoundVal, trRound, min_length,
    minLenAux, runLoop, execBar, execSymbol, execBuy, execSell, execSignals,
    generate_signals, mapSignals, trendSignal, pyMax, pyMin, pySlice,
    listTake, listDrop, pyGet, lookupA, eraseA, positions_value_calc, tsOf,
    initState, Bind.bind, Except.bind, max_def, min_def]

/-! Claim C2. -/

/-- C2: for every run and every bar, the EquityPoint appended for that
bar satisfies equity = cash + positions_value exactly, positions_value
being the recorded sum over open positions of quantity times the
symbol's close on the current bar (positions_value_calc). -/
theorem C2_equity_identity (cfg : EngineConfig)
    (md : List (String × MarketSeries)) (stype : StrategyType)
    (p : StrategyParams) (sd : ℤ) (st : BacktestState)
    (h : runSim cfg md stype p sd = .ok st) :
    ∀ pt ∈ st.equity_curve, pt.equity = pt.cash + pt.positions_value := by
  simp only [runSim] at h
  refine runLoop_pres
    (P := fun s => ∀ pt ∈ s.equity_curve,
      pt.equity = pt.cash + pt.positions_value)
    (fun i => execBar_pres_curveEq (i := i)) _ _ _ _ ?_ h
  intro pt hpt
  simp [initState] at hpt

/-- Witness for C2 at the concrete three-bar run: the second recorded
point satisfies the identity. -/
theorem C2_equity_identity_witness :
    (⟨1, 19996999/200, 17996999/200, 10000⟩ : EquityPoint).equity =
      (⟨1, 19996999/200, 17996999/200, 10000⟩ : EquityPoint).cash +
      (⟨1, 19996999/200, 17996999/200, 10000⟩ : EquityPoint).positions_value :=
  C2_equity_identity {} mktRound .trend_following params1 0 stRoundVal
    runSim_mktRound_eq _ (by simp [stRoundVal])

/-! Claim C9. -/

/-- C9: the engine only ever creates long positions, and every Trade it
records carries side "long", whatever the strategy signals. -/
theorem C9_sides_long (cfg : EngineConfig)
    (md : List (String × MarketSeries)) (stype : StrategyType)
    (p : StrategyParams) (sd : ℤ) (st : BacktestState)
    (h : runSim cfg md stype p sd = .ok st) :
    (∀ sp ∈ st.positions, sp.2.side = "long") ∧
      ∀ t ∈ st.trades, t.side = "long" := by
  simp only [runSim] at h
  refine runLoop_pres
    (P := fun s => (∀ sp ∈ s.positions, sp.2.side = "long") ∧
      ∀ t ∈ s.trades, t.side = "long")
    (fun i => execBar_pres_sides (i := i)) _ _ _ _ ⟨?_, ?_⟩ h
  · intro sp hsp
    simp [initState] at hsp
  · intro t ht
    simp [initState] at ht

/-- Witness for C9: the recorded trade of the concrete three-bar run,
closed by a sell signal, has side "long". -/
theorem C9_sides_long_witness : trRound.side = "long" :=
  (C9_sides_long {} mktRound .trend_following params1 0 stRoundVal
    runSim_mktRound_eq).2 trRound (by simp [stRoundVal])

/-! Claim C1. -/

/-- Evaluation of the negative-price run. -/
theorem runSim_mktNeg_eq :
    runSim {} mktNeg .trend_following params1 0 = .ok stNegVal := by
  norm_num [runSim, mktNeg, params1, stNegVal, trNeg, min_length,
    minLenAux, runLoop, execBar, execSymbol, execBuy, execSell, execSignals,
    generate_signals, mapSignals, trendSignal, pyMax, pyMin, pySlice,
    listTake, listDrop, pyGet, lookupA, eraseA, positions_value_calc, tsOf,
    initState, Bind.bind, Except.bind, max_def, min_def]

/-- C1 counterexample: a run of the engine (trend following, lookback 1,
default engine configuration) on a price series containing a negative
close records an EquityPoint whose cash balance is negative: selling the
open position at the close price -20000 books proceeds of about -998500
against a cash balance of about 89985. The cash >= 0 invariant claimed
for every run is therefore false as stated. -/
theorem C1_counterexample :
    runSim {} mktNeg .trend_following params1 0 = .ok stNegVal ∧
    (⟨2, -181703101/200, -181703101/200, 0⟩ : EquityPoint) ∈
      stNegVal.equity_curve ∧
    ¬ (0 : ℚ) ≤ (⟨2, -181703101/200, -181703101/200, 0⟩ : EquityPoint).cash :=
  ⟨runSim_mktNeg_eq, by simp [stNegVal], by norm_num⟩

/-- C1 (amended): when the initial capital is nonnegative, every close
price is nonnegative and the cost fractions are at most 1 (the engine
defaults are 0.1 and 0.05 percent), every recorded EquityPoint has
cash >= 0; and unconditionally, a buy whose total cost
quantity * entry_price * (1 + commission) exceeds the available cash is
rejected entirely, leaving the state unchanged. -/
theorem C1_cash_invariant :
    (∀ (cfg : EngineConfig) (md : List (String × MarketSeries))
        (stype : StrategyType) (p : StrategyParams) (sd : ℤ)
        (st : BacktestState),
      0 ≤ cfg.initial_capital → cfg.slippage ≤ 1 → cfg.commission ≤ 1 →
      (∀ sm ∈ md, ∀ q ∈ sm.2.close, 0 ≤ q) →
      runSim cfg md stype p sd = .ok st →
      ∀ pt ∈ st.equity_curve, 0 ≤ pt.cash) ∧
    (∀ (cfg : EngineConfig) (pd : List (String × List ℚ)) (i : ℕ)
        (st : BacktestState) (sym : String) (prices : List ℚ) (cp : ℚ),
      lookupA pd sym = some prices → prices[i]? = some cp → 0 < cp →
      lookupA st.positions sym = none →
      st.cash < st.cash * (1/10) / cp * (cp * (1 + cfg.slippage)) *
        (1 + cfg.commission) →
      execSymbol cfg pd i st sym .buy = .ok st) := by
  constructor
  · intro cfg md stype p sd st hcap hs hc hq h
    simp only [runSim] at h
    have hpd : ∀ sp ∈ md.map (fun sm => (sm.1, sm.2.close)),
        ∀ q ∈ sp.2, 0 ≤ q := by
      intro sp hsp q hqq
      obtain ⟨sm, hsm, rfl⟩ := List.mem_map.mp hsp
      exact hq sm hsm q hqq
    refine (runLoop_pres
      (P := fun s => 0 ≤ s.cash ∧ (∀ sp ∈ s.positions, 0 < sp.2.quantity) ∧
        ∀ pt ∈ s.equity_curve, 0 ≤ pt.cash)
      (fun i => execBar_pres_cash (i := i) hpd hs hc) _ _ _ _
      ⟨by simpa [initState] using hcap, ?_, ?_⟩ h).2.2
    · intro sp hsp
      simp [initState] at hsp
    · intro pt hpt
      simp [initState] at hpt
  · intro cfg pd i st sym prices cp hlook hget hcp hpos hcost
    unfold execSymbol
    rw [hlook]
    simp only [pyGet, hget, Bind.bind, Except.bind, hpos]
    unfold execBuy
    rw [if_neg (ne_of_gt hcp)]
    dsimp only []
    by_cases h1 : 0 < st.cash * (1/10) / cp ∧ st.cash * (1/10) ≤ st.cash
    · rw [if_pos h1, if_neg (not_le.mpr hcost)]
    · rw [if_neg h1]

/-- Witness for C1: the invariant instantiated at the concrete
three-bar run (first recorded point), and a concrete rejected buy (cash
100, price 5, commission 20: the cost 210 exceeds the cash). -/
theorem C1_cash_invariant_witness :
    (0 : ℚ) ≤ (⟨0, 100000, 100000, 0⟩ : EquityPoint).cash ∧
    execSymbol ⟨100, 20, 0⟩ [("A", [5])] 0 (initState ⟨100, 20, 0⟩ 0) "A"
      .buy = .ok (initState ⟨100, 20, 0⟩ 0) := by
  constructor
  · exact C1_cash_invariant.1 {} mktRound .trend_following params1 0
      stRoundVal (by norm_num) (by norm_num) (by norm_num)
      (by norm_num [mktRound]) runSim_mktRound_eq _ (by simp [stRoundVal])
  · exact C1_cash_invariant.2 ⟨100, 20, 0⟩ [("A", [5])] 0
      (initState ⟨100, 20, 0⟩ 0) "A" [5] 5 (by norm_num [lookupA])
      (by norm_num) (by norm_num) (by norm_num [initState, lookupA])
      (by norm_num [initState])

/-! Claim C3. -/

/-- C3 counterexample: a buy signal on a bar whose close price is zero
makes the position-sizing division position_value / current_price raise
ZeroDivisionError inside the per-bar loop: that division is not guarded.
The claim that every division in the loop is guarded and that no
operation in the loop raises is therefore false as stated. -/
theorem C3_counterexample :
    run_backtest {} mktDiv .mean_reversion params1 0 =
      .error "ZeroDivisionError" := by
  norm_num [run_backtest, mktDiv, params1, min_length, minLenAux, runLoop,
    execBar, execSymbol, execBuy, execSell, execSignals, generate_signals,
    mapSignals, meanReversionSignal, npMean, npVar, gtMulSqrt, pySlice,
    listTake, listDrop, pyGet, lookupA, eraseA, positions_value_calc, tsOf,
    initState, Bind.bind, Except.bind, max_def, min_def]

/-- C3 (amended): the pnl_percent division is guarded, but the
position-sizing division by the current close is not; on any input
whose close prices are all nonzero, whose timestamp arrays cover the
common length and whose lookback parameter is positive, no operation in
the per-bar loop raises and the run returns a result. -/
theorem C3_loop_safety (cfg : EngineConfig)
    (md : List (String × MarketSeries)) (stype : StrategyType)
    (p : StrategyParams) (sd : ℤ)
    (hq : ∀ sm ∈ md, ∀ q ∈ sm.2.close, q ≠ 0)
    (hts : ∀ sm ∈ md,
      min_length (md.map (fun sm => (sm.1, sm.2.close))) ≤
        sm.2.timestamps.length)
    (hlb : 0 < p.lookback) :
    ∃ r, run_backtest cfg md stype p sd = .ok r := by
  simp only [run_backtest]
  by_cases h0 : min_length (md.map (fun sm => (sm.1, sm.2.close))) = 0
  · rw [if_pos h0]
    exact ⟨empty_results, rfl⟩
  · rw [if_neg h0]
    have hbar : ∀ (i : ℕ) (st : BacktestState),
        i < min_length (md.map (fun sm => (sm.1, sm.2.close))) →
        ∃ st', execBar cfg md (md.map (fun sm => (sm.1, sm.2.close)))
          stype p i st = .ok st' := by
      intro i st hi
      apply execBar_ok_exists
      · intro sp hsp
        obtain ⟨sm, hsm, rfl⟩ := List.mem_map.mp hsp
        exact ⟨lt_of_lt_of_le hi (min_length_le hsp),
          fun q hq2 => hq sm hsm q hq2⟩
      · intro sm hsm
        exact lt_of_lt_of_le hi (hts sm hsm)
      · exact hlb
    obtain ⟨st, hst⟩ := runLoop_ok_exists hbar
      (min_length (md.map (fun sm => (sm.1, sm.2.close)))) 0
      (initState cfg sd) (by omega)
    refine ⟨calculate_metrics cfg st, ?_⟩
    rw [hst]
    simp [Bind.bind, Except.bind]

/-- Witness for C3 at a concrete all-positive two-bar input with the
default strategy parameters. -/
theorem C3_loop_safety_witness :
    ∃ r, run_backtest {} mktUp .trend_following {} 0 = .ok r :=
  C3_loop_safety {} mktUp .trend_following {} 0 (by norm_num [mktUp])
    (by norm_num [mktUp, min_length, minLenAux]) (by norm_num)

/-! Claim C5. -/

/-- C5 counterexample: invoking the engine with an empty symbol set AND
a negative initial capital is not rejected: the run returns the normal
empty result object. Neither the engine nor its callers validate the
configuration, so the invalidity is not caller-visible and nothing is
rejected before simulation starts. -/
theorem C5_counterexample :
    run_backtest ⟨-5, 1/1000, 1/2000⟩ [] .momentum {} 0 =
      .ok empty_results := by
  rfl

/-- C5 (amended): invalid configurations are not rejected. An empty
symbol set is silently converted into the defined empty result, and a
negative initial capital is silently simulated (on positive-price data
no buy can ever execute, so the run completes with no trades and also
returns the empty result). -/
theorem C5_no_validation :
    (∀ (cfg : EngineConfig) (stype : StrategyType) (p : StrategyParams)
        (sd : ℤ), run_backtest cfg [] stype p sd = .ok empty_results) ∧
    (∀ (cfg : EngineConfig) (md : List (String × MarketSeries))
        (stype : StrategyType) (p : StrategyParams) (sd : ℤ),
      cfg.initial_capital < 0 →
      (∀ sm ∈ md, ∀ q ∈ sm.2.close, 0 < q) →
      (∀ sm ∈ md,
        min_length (md.map (fun sm => (sm.1, sm.2.close))) ≤
          sm.2.timestamps.length) →
      0 < p.lookback →
      run_backtest cfg md stype p sd = .ok empty_results) := by
  constructor
  · intro cfg stype p sd
    rfl
  · intro cfg md stype p sd hneg hq hts hlb
    have hpd : ∀ sp ∈ md.map (fun sm => (sm.1, sm.2.close)),
        ∀ q ∈ sp.2, 0 < q := by
      intro sp hsp q hqq
      obtain ⟨sm, hsm, rfl⟩ := List.mem_map.mp hsp
      exact hq sm hsm q hqq
    simp only [run_backtest]
    by_cases h0 : min_length (md.map (fun sm => (sm.1, sm.2.close))) = 0
    · rw [if_pos h0]
    · rw [if_neg h0]
      have hbar : ∀ (i : ℕ) (st : BacktestState),
          i < min_length (md.map (fun sm => (sm.1, sm.2.close))) →
          ∃ st', execBar cfg md (md.map (fun sm => (sm.1, sm.2.close)))
            stype p i st = .ok st' := by
        intro i st hi
        apply execBar_ok_exists
        · intro sp hsp
          exact ⟨lt_of_lt_of_le hi (min_length_le hsp),
            fun q hq2 => ne_of_gt (hpd sp hsp q hq2)⟩
        · intro sm hsm
          exact lt_of_lt_of_le hi (hts sm hsm)
        · exact hlb
      obtain ⟨st, hst⟩ := runLoop_ok_exists hbar
        (min_length (md.map (fun sm => (sm.1, sm.2.close)))) 0
        (initState cfg sd) (by omega)
      have hun := runLoop_pres
        (P := fun s => s.cash = cfg.initial_capital ∧ s.positions = [] ∧
          s.trades = [])
        (fun i => execBar_pres_untouched (i := i) hpd hneg) _ _ _ _
        ⟨rfl, rfl, rfl⟩ hst
      rw [hst]
      simp only [Bind.bind, Except.bind]
      rw [calculate_metrics, if_pos hun.2.2]

/-- Witness for C5: a negative-capital run on concrete positive-price
data completes and yields the empty result instead of being rejected. -/
theorem C5_no_validation_witness :
    run_backtest ⟨-100, 1/1000, 1/2000⟩ mktUp .momentum {} 0 =
      .ok empty_results :=
  C5_no_validation.2 ⟨-100, 1/1000, 1/2000⟩ mktUp .momentum {} 0
    (by norm_num) (by norm_num [mktUp])
    (by norm_num [mktUp, min_length, minLenAux]) (by norm_num)

/-! Claim C6. -/

/-- C6: each strategy, called with a current index strictly below its
required window (long_period for momentum, period for mean reversion,
lookback for trend following), returns hold for every symbol of the
price history and raises no error. -/
theorem C6_hold_before_window (p : StrategyParams)
    (data : List (String × List ℚ)) (i : ℕ) :
    ((i : ℤ) < p.long_period →
      generate_signals .momentum p data i =
        .ok (data.map (fun sp => (sp.1, Signal.hold)))) ∧
    ((i : ℤ) < p.period →
      generate_signals .mean_reversion p data i =
        .ok (data.map (fun sp => (sp.1, Signal.hold)))) ∧
    ((i : ℤ) < p.lookback →
      generate_signals .trend_following p data i =
        .ok (data.map (fun sp => (sp.1, Signal.hold)))) := by
  refine ⟨?_, ?_, ?_⟩
  · intro h
    have hh : ∀ sp : String × List ℚ,
        momentumSignal sp.2 i p = Signal.hold := by
      intro sp
      rw [momentumSignal, if_pos h]
    simp [generate_signals, hh]
  · intro h
    simp only [generate_signals]
    exact mapSignals_hold (fun prices => by
      rw [meanReversionSignal, if_pos h]) data
  · intro h
    simp only [generate_signals]
    exact mapSignals_hold (fun prices => by
      rw [trendSignal, if_pos h]) data

/-- Witness for C6 at the default windows (30, 20, 20) on a concrete
three-bar history, one index below each window. -/
theorem C6_hold_before_window_witness :
    generate_signals .momentum {} [("A", [1, 2, 3])] 29 =
      .ok [("A", Signal.hold)] ∧
    generate_signals .mean_reversion {} [("A", [1, 2, 3])] 19 =
      .ok [("A", Signal.hold)] ∧
    generate_signals .trend_following {} [("A", [1, 2, 3])] 19 =
      .ok [("A", Signal.hold)] := by
  refine ⟨?_, ?_, ?_⟩
  · simpa using (C6_hold_before_window {} [("A", [1, 2, 3])] 29).1
      (by norm_num)
  · simpa using (C6_hold_before_window {} [("A", [1, 2, 3])] 19).2.1
      (by norm_num)
  · simpa using (C6_hold_before_window {} [("A", [1, 2, 3])] 19).2.2
      (by norm_num)

/-! Claim C8. -/

/-- C8: with commission and slippage both zero, a buy at close price p
followed immediately by a sell at the same close price p records a
Trade with pnl exactly 0: the proceeds quantity * p cancel the cost
basis quantity * p. -/
theorem C8_round_trip (cfg : EngineConfig) (pd : List (String × List ℚ))
    (st : BacktestState) (sym : String) (prices : List ℚ) (i j : ℕ)
    (cp : ℚ) (hcomm : cfg.commission = 0) (hslip : cfg.slippage = 0)
    (hlook : lookupA pd sym = some prices)
    (hi : prices[i]? = some cp) (hj : prices[j]? = some cp)
    (hp : 0 < cp) (hcash : 0 < st.cash)
    (hpos : lookupA st.positions sym = none) :
    ∃ st1 st2 tr, execSymbol cfg pd i st sym .buy = .ok st1 ∧
      execSymbol cfg pd j st1 sym .sell = .ok st2 ∧
      st2.trades = st.trades ++ [tr] ∧ tr.pnl = 0 := by
  obtain ⟨cap, comm, slip⟩ := cfg
  simp only [] at hcomm hslip
  subst hcomm
  subst hslip
  set q := st.cash * (1/10) / cp with hqdef
  have hq : 0 < q := div_pos (by linarith) hp
  have hpv : st.cash * (1/10) ≤ st.cash := by linarith
  have hcost : q * (cp * (1 + 0)) * (1 + 0) ≤ st.cash := by
    rw [hqdef, show st.cash * (1/10) / cp * (cp * (1 + 0)) * (1 + 0) =
      st.cash * (1/10) / cp * cp by ring,
      div_mul_cancel₀ _ (ne_of_gt hp)]
    linarith
  let posB : Position := ⟨sym, q, cp * (1 + 0), st.date, "long"⟩
  let stB : BacktestState :=
    { st with
      cash := st.cash - q * (cp * (1 + 0)) * (1 + 0),
      positions := st.positions ++ [(sym, posB)] }
  refine ⟨stB, execSell ⟨cap, 0, 0⟩ stB sym cp posB,
    ⟨sym, "long", cp * (1 + 0), cp * (1 - 0), q, st.date, st.date,
      q * (cp * (1 - 0)) * (1 - 0) - q * (cp * (1 + 0)),
      if 0 < q * (cp * (1 + 0)) then
        (q * (cp * (1 - 0)) * (1 - 0) - q * (cp * (1 + 0))) /
          (q * (cp * (1 + 0)))
      else 0⟩, ?_, ?_, ?_, ?_⟩
  · unfold execSymbol
    rw [hlook]
    simp only [pyGet, hi, Bind.bind, Except.bind, hpos]
    unfold execBuy
    rw [if_neg (ne_of_gt hp)]
    dsimp only []
    rw [if_pos ⟨hq, hpv⟩, if_pos hcost]
  · unfold execSymbol
    rw [hlook]
    simp only [pyGet, hj, Bind.bind, Except.bind]
    rw [lookupA_append_of_none hpos]
  · exact execSell_trades
  · dsimp only []
    ring

/-- Witness for C8: cash 1000, one symbol at price 5, zero costs. -/
theorem C8_round_trip_witness :
    ∃ st1 st2 tr,
      execSymbol ⟨1000, 0, 0⟩ [("A", [5])] 0 (initState ⟨1000, 0, 0⟩ 0) "A"
        .buy = .ok st1 ∧
      execSymbol ⟨1000, 0, 0⟩ [("A", [5])] 0 st1 "A" .sell = .ok st2 ∧
      st2.trades = (initState ⟨1000, 0, 0⟩ 0).trades ++ [tr] ∧ tr.pnl = 0 :=
  C8_round_trip ⟨1000, 0, 0⟩ [("A", [5])] (initState ⟨1000, 0, 0⟩ 0) "A"
    [5] 0 0 5 rfl rfl (by norm_num [lookupA]) (by norm_num) (by norm_num)
    (by norm_num) (by norm_num [initState]) (by norm_num [initState, lookupA])

/-! Claims C10 and C4: the metrics calculator. -/
theorem trades_filter_split : ∀ l : List Trade,
    (l.filter (fun t => 0 < t.pnl)).length +
      (l.filter (fun t => t.pnl ≤ 0)).length = l.length := by
  intro l
  induction l with
  | nil => simp
  | cons t r ih =>
    by_cases h : 0 < t.pnl <;>
      simp [List.filter_cons, h, not_le.mpr, not_lt.mp] <;>
      omega

/-- C10: winning_trades counts exactly the trades with pnl strictly
positive, losing_trades is total minus winning, the two always sum to
the total, and a zero-pnl trade counts as losing. -/
theorem C10_trade_counts (cfg : EngineConfig) (st : BacktestState)
    (h : st.trades ≠ []) :
    (calculate_metrics cfg st).total_trades = st.trades.length ∧
    (calculate_metrics cfg st).winning_trades =
      (st.trades.filter (fun t => 0 < t.pnl)).length ∧
    (calculate_metrics cfg st).losing_trades =
      (calculate_metrics cfg st).total_trades -
        (calculate_metrics cfg st).winning_trades ∧
    (calculate_metrics cfg st).winning_trades +
        (calculate_metrics cfg st).losing_trades =
      (calculate_metrics cfg st).total_trades ∧
    (calculate_metrics cfg st).losing_trades =
      (st.trades.filter (fun t => t.pnl ≤ 0)).length := by
  have ht : (calculate_metrics cfg st).total_trades = st.trades.length := by
    rw [calculate_metrics, if_neg h]
  have hw : (calculate_metrics cfg st).winning_trades =
      (st.trades.filter (fun t => 0 < t.pnl)).length := by
    rw [calculate_metrics, if_neg h]
  have hl : (calculate_metrics cfg st).losing_trades =
      st.trades.length - (st.trades.filter (fun t => 0 < t.pnl)).length := by
    rw [calculate_metrics, if_neg h]
  have hsplit := trades_filter_split st.trades
  have hle : (st.trades.filter (fun t => 0 < t.pnl)).length ≤
      st.trades.length := List.length_filter_le _ _
  exact ⟨ht, hw, by omega, by omega, by omega⟩

/-- Witness for C10 at the concrete three-trade state. -/
theorem C10_trade_counts_witness :
    (calculate_metrics {} stMix).total_trades = stMix.trades.length ∧
    (calculate_metrics {} stMix).winning_trades =
      (stMix.trades.filter (fun t => 0 < t.pnl)).length ∧
    (calculate_metrics {} stMix).losing_trades =
      (calculate_metrics {} stMix).total_trades -
        (calculate_metrics {} stMix).winning_trades ∧
    (calculate_metrics {} stMix).winning_trades +
        (calculate_metrics {} stMix).losing_trades =
      (calculate_metrics {} stMix).total_trades ∧
    (calculate_metrics {} stMix).losing_trades =
      (stMix.trades.filter (fun t => t.pnl ≤ 0)).length :=
  C10_trade_counts {} stMix (by simp [stMix])

/-- Rounding a zero ratio gives zero. -/
theorem round2_zero : round2 0 = 0 := by
  norm_num [round2, roundDec]

/-- C4 (amended): with at least one losing trade, profit_factor is the
2-dp rounding of sum(wins) / sum(|losses|); with no losing trade it is
the 999.99 sentinel, even when there is also no winning trade (all PnLs
exactly zero); with no winning trade but at least one losing trade it
is 0. -/
theorem C4_profit_factor (cfg : EngineConfig) (st : BacktestState)
    (h : st.trades ≠ []) :
    ((st.trades.filter (fun t => t.pnl < 0)) ≠ [] →
      (calculate_metrics cfg st).profit_factor =
        round2 (((st.trades.filter (fun t => 0 < t.pnl)).map Trade.pnl).sum /
          ((st.trades.filter (fun t => t.pnl < 0)).map
            (fun t => |t.pnl|)).sum)) ∧
    ((st.trades.filter (fun t => t.pnl < 0)) = [] →
      (calculate_metrics cfg st).profit_factor = 999.99) ∧
    ((st.trades.filter (fun t => 0 < t.pnl)) = [] →
      (st.trades.filter (fun t => t.pnl < 0)) ≠ [] →
      (calculate_metrics cfg st).profit_factor = 0) := by
  have hsum : (st.trades.filter (fun t => t.pnl < 0)) ≠ [] →
      0 < ((st.trades.filter (fun t => t.pnl < 0)).map
        (fun t => |t.pnl|)).sum := by
    intro hne
    apply List.sum_pos
    · intro x hx
      obtain ⟨t, htmem, rfl⟩ := List.mem_map.mp hx
      have := List.of_mem_filter htmem
      simp only [decide_eq_true_eq] at this
      exact abs_pos.mpr (ne_of_lt this)
    · simp only [ne_eq, List.map_eq_nil_iff]
      exact hne
  refine ⟨?_, ?_, ?_⟩
  · intro hne
    rw [calculate_metrics, if_neg h]
    dsimp only []
    rw [if_pos ⟨by simpa [List.map_eq_nil_iff] using hne, hsum hne⟩]
  · intro hnil
    rw [calculate_metrics, if_neg h]
    dsimp only []
    rw [if_neg (by simp [hnil])]
  · intro hwin hne
    rw [calculate_metrics, if_neg h]
    dsimp only []
    rw [if_pos ⟨by simpa [List.map_eq_nil_iff] using hne, hsum hne⟩, hwin]
    simp [round2_zero]

/-- Witness for C4 at three concrete trade lists: mixed trades give the
rounded ratio, an all-winning list gives the sentinel, and a list with
no win but a loss gives 0. -/
theorem C4_profit_factor_witness :
    (calculate_metrics {} stMix).profit_factor =
      round2 (((stMix.trades.filter (fun t => 0 < t.pnl)).map
        Trade.pnl).sum /
        ((stMix.trades.filter (fun t => t.pnl < 0)).map
          (fun t => |t.pnl|)).sum) ∧
    (calculate_metrics {} stWin).profit_factor = 999.99 ∧
    (calculate_metrics {} stLoss).profit_factor = 0 :=
  ⟨(C4_profit_factor {} stMix (by simp [stMix])).1
      (by norm_num [stMix, List.filter]),
   (C4_profit_factor {} stWin (by simp [stWin])).2.1
      (by norm_num [stWin, List.filter]),
   (C4_profit_factor {} stLoss (by simp [stLoss])).2.2
      (by norm_num [stLoss, List.filter])
      (by norm_num [stLoss, List.filter])⟩

/-- A run whose min length is nonzero returns the metrics of the
simulated final state. -/
theorem run_backtest_eq_of_runSim {cfg : EngineConfig}
    {md : List (String × MarketSeries)} {stype : StrategyType}
    {p : StrategyParams} {sd : ℤ} {st : BacktestState}
    (h0 : min_length (md.map (fun sm => (sm.1, sm.2.close))) ≠ 0)
    (h : runSim cfg md stype p sd = .ok st) :
    run_backtest cfg md stype p sd = .ok (calculate_metrics cfg st) := by
  simp only [run_backtest]
  rw [if_neg h0]
  simp only [runSim] at h
  rw [h]
  simp [Bind.bind, Except.bind]

/-- Evaluation of the zero-pnl run. -/
theorem runSim_mktZero_eq :
    runSim {} mktZero .mean_reversion params1 0 = .ok stZeroVal := by
  norm_num [runSim, mktZero, params1, stZeroVal, trZero, min_length,
    minLenAux, runLoop, execBar, execSymbol, execBuy, execSell, execSignals,
    generate_signals, mapSignals, meanReversionSignal, npMean, npVar,
    gtMulSqrt, pySlice, listTake, listDrop, pyGet, lookupA, eraseA,
    positions_value_calc, tsOf, initState, Bind.bind, Except.bind,
    max_def, min_def]

/-- C4 counterexample: a run with exactly one completed trade whose pnl
is exactly 0 has no winning trade, yet its profit_factor is the
sentinel 999.99 and not 0: with no losses the source falls into the
float('inf') branch even when there are no wins. The claim that
profit_factor is 0 whenever there are no winning trades is therefore
false as stated. -/
theorem C4_counterexample :
    run_backtest {} mktZero .mean_reversion params1 0 =
      .ok (calculate_metrics {} stZeroVal) ∧
    (calculate_metrics {} stZeroVal).total_trades = 1 ∧
    (calculate_metrics {} stZeroVal).winning_trades = 0 ∧
    (calculate_metrics {} stZeroVal).profit_factor = 999.99 ∧
    (999.99 : ℚ) ≠ 0 := by
  refine ⟨run_backtest_eq_of_runSim
      (by norm_num [mktZero, min_length, minLenAux]) runSim_mktZero_eq,
    ?_, ?_, ?_, by norm_num⟩
  · rw [calculate_metrics, if_neg (by simp [stZeroVal])]
    norm_num [stZeroVal, trZero, List.filter]
  · rw [calculate_metrics, if_neg (by simp [stZeroVal])]
    norm_num [stZeroVal, trZero, List.filter]
  · rw [calculate_metrics, if_neg (by simp [stZeroVal])]
    dsimp only []
    rw [if_neg (by norm_num [stZeroVal, trZero, List.filter])]

/-! Claim C7. -/

/-- C7 counterexample: on the mktNeg run (one completed trade, equity
driven negative by the sell at a negative close) the return series the
code derives skips the pair whose previous equity is negative, while
the series prescribed by the claim (skip only a zero previous equity)
keeps it: the two series differ (2 entries versus 3). The claim's
description of how returns are derived is therefore false as stated. -/
theorem C7_counterexample :
    runSim {} mktNeg .trend_following params1 0 = .ok stNegVal ∧
    stNegVal.trades.length = 1 ∧
    (equity_returns (stNegVal.equity_curve.map EquityPoint.equity)).length
      = 2 ∧
    (equity_returns_spec
      (stNegVal.equity_curve.map EquityPoint.equity)).length = 3 ∧
    (2 : ℕ) ≠ 3 :=
  ⟨runSim_mktNeg_eq, by simp [stNegVal],
   by norm_num [stNegVal, equity_returns],
   by norm_num [stNegVal, equity_returns_spec],
   by norm_num⟩

/-- C7 (amended): per-bar returns are (e2 - e1) / e1 over consecutive
equity points, skipping the pairs whose previous equity is NOT strictly
positive; where the variance of the returns is positive the unrounded
sharpe value (mean * 252) / (std * sqrt 252) equals
mean / std * sqrt 252; and the sharpe value is 0 when the return series
has fewer than 2 points or its standard deviation is zero. -/
theorem C7_sharpe (curve : List EquityPoint) :
    (equity_returns (curve.map EquityPoint.equity) =
      ((curve.map EquityPoint.equity).zip
          (curve.map EquityPoint.equity).tail).filterMap
        (fun pr => if 0 < pr.1 then some ((pr.2 - pr.1) / pr.1)
          else none)) ∧
    (1 < curve.length →
      equity_returns (curve.map EquityPoint.equity) ≠ [] →
      0 < (npVar (equity_returns (curve.map EquityPoint.equity))).getD 0 →
      sharpe_ratio_calc curve =
        (((npMean (equity_returns (curve.map EquityPoint.equity))).getD 0
            : ℝ) /
          Real.sqrt
            (((npVar (equity_returns
              (curve.map EquityPoint.equity))).getD 0 : ℚ) : ℝ)) *
          Real.sqrt 252) ∧
    ((equity_returns (curve.map EquityPoint.equity)).length < 2 →
      sharpe_ratio_calc curve = 0) ∧
    ((npVar (equity_returns (curve.map EquityPoint.equity))).getD 0 = 0 →
      sharpe_ratio_calc curve = 0) := by
  refine ⟨equity_returns_zip _, ?_, ?_, ?_⟩
  · intro h1 h2 h3
    rw [sharpe_ratio_calc, if_pos h1]
    dsimp only []
    rw [if_pos h2, if_pos h3]
    have hvpos : (0:ℝ) <
        ((npVar (equity_returns (curve.map EquityPoint.equity))).getD 0
          : ℝ) := by
      exact_mod_cast h3
    have hsv : Real.sqrt
        ((npVar (equity_returns (curve.map EquityPoint.equity))).getD 0
          : ℝ) ≠ 0 := ne_of_gt (Real.sqrt_pos.mpr hvpos)
    have h252 : Real.sqrt 252 * Real.sqrt 252 = (252:ℝ) :=
      Real.mul_self_sqrt (by norm_num)
    have h252n : Real.sqrt 252 ≠ 0 :=
      ne_of_gt (Real.sqrt_pos.mpr (by norm_num))
    field_simp
    linear_combination
      (-((((npMean (equity_returns (curve.map EquityPoint.equity))).getD 0
          : ℝ)) *
        Real.sqrt
          (((npVar (equity_returns
            (curve.map EquityPoint.equity))).getD 0 : ℚ) : ℝ))) * h252
  · intro hlen
    by_cases h1 : 1 < curve.length
    · rw [sharpe_ratio_calc, if_pos h1]
      dsimp only []
      by_cases h2 : equity_returns (curve.map EquityPoint.equity) ≠ []
      · rw [if_pos h2]
        have hpos : 0 <
            (equity_returns (curve.map EquityPoint.equity)).length :=
          List.length_pos.mpr h2
        have hone :
            (equity_returns (curve.map EquityPoint.equity)).length = 1 := by
          omega
        obtain ⟨r, hr⟩ := List.length_eq_one.mp hone
        rw [hr, npVar_singleton]
        norm_num
      · rw [if_neg h2]
    · rw [sharpe_ratio_calc, if_neg h1]
  · intro hvar
    by_cases h1 : 1 < curve.length
    · rw [sharpe_ratio_calc, if_pos h1]
      dsimp only []
      by_cases h2 : equity_returns (curve.map EquityPoint.equity) ≠ []
      · rw [if_pos h2, if_neg (by rw [hvar]; exact lt_irrefl 0)]
      · rw [if_neg h2]
    · rw [sharpe_ratio_calc, if_neg h1]

/-- Returns of the concrete witness curve. -/
theorem curveW_returns :
    equity_returns (curveW.map EquityPoint.equity) = [1/10, 1/5] := by
  norm_num [curveW, equity_returns]

/-- Witness for C7: the zip characterization and the sharpe formula at
the concrete curve 100, 110, 132 (returns 1/10 and 1/5, variance
1/400), and the zero case at a one-point curve. -/
theorem C7_sharpe_witness :
    (equity_returns (curveW.map EquityPoint.equity) =
      ((curveW.map EquityPoint.equity).zip
          (curveW.map EquityPoint.equity).tail).filterMap
        (fun pr => if 0 < pr.1 then some ((pr.2 - pr.1) / pr.1)
          else none)) ∧
    sharpe_ratio_calc curveW =
      (((npMean (equity_returns (curveW.map EquityPoint.equity))).getD 0
          : ℝ) /
        Real.sqrt
          (((npVar (equity_returns
            (curveW.map EquityPoint.equity))).getD 0 : ℚ) : ℝ)) *
        Real.sqrt 252 ∧
    sharpe_ratio_calc [⟨0, 100, 100, 0⟩] = 0 :=
  ⟨(C7_sharpe curveW).1,
   (C7_sharpe curveW).2.1 (by norm_num [curveW])
     (by rw [curveW_returns]; exact List.cons_ne_nil _ _)
     (by rw [curveW_returns, npVar, if_neg (List.cons_ne_nil _ _)]
         norm_num),
   (C7_sharpe [⟨0, 100, 100, 0⟩]).2.2.1
     (by norm_num [equity_returns])⟩

end Backtesting
